import Mathlib

set_option linter.unusedSectionVars false

/-!
Verification of the constraint-system witness solver of the
`gnark-tiny-prover-g16` repository (package `cs`, the `hintsolver` registry,
and the blueprint compression in `witness.go`), against its natural-language
specification.

The Go code works over the BN254 scalar field `fr.Element`; the development
is generic over a field `F` with decidable equality (instantiated at a small
prime field `ZMod 13` in concrete evaluations).  Machine integers (`uint32`,
`uint64`) are modelled as `ℕ`, with an explicit `% 2 ^ 32` at every Go
`uint32(...)` conversion site.  Stateful methods that mutate the solver and
return a Go `error` are modelled as functions returning
`SolverState F × Option (SolveError F)`; Go panics are modelled as dedicated
error values (a panic aborts the process, so no state after a panic is ever
observed by a caller).
-/

namespace GnarkG16


/-- `2 ^ 32`, the modulus of Go's `uint32`; applied at every source site that
converts a wider integer to `uint32`. -/
def U32 : ℕ := 2 ^ 32

/-- Reserved coefficient ids, from `const ( CoeffIdZero = iota ... )`. -/
def CoeffIdZero : ℕ := 0

/-- Coefficient id of the constant 1. -/
def CoeffIdOne : ℕ := 1

/-- Coefficient id of the constant 2. -/
def CoeffIdTwo : ℕ := 2

/-- Coefficient id of the constant -1. -/
def CoeffIdMinusOne : ℕ := 3

/-- Coefficient id of the constant -2. -/
def CoeffIdMinusTwo : ℕ := 4

/-- `Term` represents a `coeff * variable` pair in a constraint system
(`type Term struct { CID, VID uint32 }`). -/
structure Term where
  CID : ℕ
  VID : ℕ
deriving DecidableEq

/-- `math.MaxUint32`, the sentinel wire id marking a constant term. -/
def maxUint32 : ℕ := 2 ^ 32 - 1

/-- `func (t *Term) IsConstant() bool { return t.VID == math.MaxUint32 }`. -/
def Term.IsConstant (t : Term) : Bool := t.VID = maxUint32

/-- `type LinearExpression []Term`. -/
abbrev LinearExpression := List Term

/-- `type R1C struct { L, R, O LinearExpression }`. -/
structure R1C where
  L : LinearExpression
  R : LinearExpression
  O : LinearExpression
deriving DecidableEq

/-- Output wire range of a hint (`OutputRange` with `Start`, `End : uint32`).
`End` is spelled `stop` because `end` is a Lean keyword. -/
structure OutputRange where
  start : ℕ
  stop : ℕ
deriving DecidableEq

/-- `type HintMapping struct { HintID csolver.HintID; Inputs []LinearExpression;
OutputRange struct{ Start, End uint32 } }`.  `HintID` is a 64-bit id derived
from the hint name. -/
structure HintMapping where
  hintID : ℕ
  inputs : List LinearExpression
  outputRange : OutputRange
deriving DecidableEq

/-! ## Per-level dispatch of the solver's `run` loop

`run` computes `maxCPU := float64(len(level)) / minWorkPerCPU` with
`const minWorkPerCPU = 50.0` and executes the level sequentially on the
caller thread iff `maxCPU <= 1.0`.  For a level length `n` within any
realistic range, `float64(n)` is exact and the correctly rounded quotient
`n / 50.0` compares to `1.0` exactly as the rational `n / 50` compares to
`1` (the quotient is exactly `1` at `n = 50`, and for `n ≥ 51` the true
value `≥ 1.02` is far beyond one ulp from `1.0`), so the float comparison
is modelled by the exact rational comparison. -/

/-- `const minWorkPerCPU = 50.0` in `run`. -/
def minWorkPerCPU : ℚ := 50

/-- `maxCPU := float64(len(level)) / minWorkPerCPU`. -/
def maxCPUFor (levelLen : ℕ) : ℚ := (levelLen : ℚ) / minWorkPerCPU

/-- The dispatch decision of `run` for one level: `true` means the level is
executed sequentially on the caller thread (`if maxCPU <= 1.0`), `false`
means it is partitioned and sent to the worker pool. -/
def runsSequentially (levelLen : ℕ) : Bool := decide (maxCPUFor levelLen ≤ 1)

/-! ## The global hint registry (`hintsolver.RegisterHint`)

The Go registry is `map[HintID]HintFn`; it is modelled as an association
list with the map's lookup semantics (`registry[id]`), which the model never
makes hold duplicate keys.  `RegisterHint` iterates over its argument list
and, on the first hint whose id is already present, logs a warning and
`return`s from the whole call. -/

/-- A `Hint` pairs an id with a function (`type Hint struct { ID HintID; Fn HintFn }`);
the function payload is abstract here. -/
structure Hint (α : Type) where
  ID : ℕ
  Fn : α

/-- Map lookup `registry[id]` on the association-list model. -/
def lookupHint {α : Type} (reg : List (ℕ × α)) (id : ℕ) : Option α :=
  (reg.find? (fun e => e.1 = id)).map Prod.snd

/-- `RegisterHint(hints ...Hint)`: for each hint in order, if its id is
already registered the call logs a warning and returns (registering nothing
further); otherwise the hint is added. -/
def registerHint {α : Type} : List (ℕ × α) → List (Hint α) → List (ℕ × α)
  | reg, [] => reg
  | reg, h :: rest =>
    if (lookupHint reg h.ID).isSome then reg
    else registerHint (reg ++ [(h.ID, h.Fn)]) rest

/-! ## Blueprint compression (`witness.go`, `BlueprintGenericHint` and
`BlueprintGenericR1C`)

Calldata is a `[]uint32`, modelled as `List ℕ` whose entries are below
`U32`.  Decompression in Go reads `calldata[j]` by index; reading past the
end of the slice panics, which never happens on data produced by the
matching compressor.  The model reads words sequentially with default `0`
for a (never reached) out-of-range read. -/

/-- Read one calldata word: the head of the remaining stream. -/
def readWord (cd : List ℕ) : ℕ × List ℕ := (cd.headD 0, cd.tail)

/-- Read `n` terms, each two consecutive calldata words `(CID, VID)` — the
inner loops of `DecompressHint` / `copySlice` in `DecompressR1C`. -/
def readTerms : ℕ → List ℕ → LinearExpression × List ℕ
  | 0, cd => ([], cd)
  | n + 1, cd =>
    let (c, cd1) := readWord cd
    let (v, cd2) := readWord cd1
    let (ts, cd3) := readTerms n cd2
    (⟨c, v⟩ :: ts, cd3)

/-- Read `n` linear expressions, each prefixed by its length — the outer
loop of `BlueprintGenericHint.DecompressHint`. -/
def readInputs : ℕ → List ℕ → List LinearExpression × List ℕ
  | 0, cd => ([], cd)
  | n + 1, cd =>
    let (len, cd1) := readWord cd
    let (ts, cd2) := readTerms len cd1
    let (ls, cd3) := readInputs n cd2
    (ts :: ls, cd3)

/-- Calldata words of one linear expression as written by the compressors:
`uint32(t.CoeffID()), uint32(t.WireID())` for each term. -/
def termsWords (l : LinearExpression) : List ℕ :=
  l.flatMap (fun t => [t.CID % U32, t.VID % U32])

/-- `BlueprintGenericHint.CompressHint`: packs
`[total_len, hintID, |inputs|, |inputs[0]|, t.cid, t.vid, ..., out_start, out_end]`.
`uint32(h.HintID)` truncates the 64-bit hint id; `OutputRange.Start/End` are
already `uint32` and are appended without conversion. -/
def compressHint (h : HintMapping) : List ℕ :=
  let nbInputs := 3 + (h.inputs.foldl (fun acc l => acc + 1 + 2 * l.length) 0) + 2
  nbInputs % U32 :: h.hintID % U32 :: h.inputs.length % U32 ::
    (h.inputs.flatMap (fun l => l.length % U32 :: termsWords l) ++
      [h.outputRange.start, h.outputRange.stop])

/-- `BlueprintGenericHint.DecompressHint`: ignores `calldata[0]`, reads the
hint id, the number of inputs, each input expression, then the output
range. -/
def decompressHint (calldata : List ℕ) : HintMapping :=
  let cd := calldata.tail
  let (hid, cd1) := readWord cd
  let (lenInputs, cd2) := readWord cd1
  let (inputs, cd3) := readInputs lenInputs cd2
  let (s, cd4) := readWord cd3
  let (e, _) := readWord cd4
  ⟨hid, inputs, ⟨s, e⟩⟩

/-- `BlueprintGenericR1C.CompressR1C`: packs
`[total_len, |L|, |R|, |O|, L.terms, R.terms, O.terms]`. -/
def compressR1C (c : R1C) : List ℕ :=
  let nbInputs := 4 + 2 * (c.L.length + c.R.length + c.O.length)
  nbInputs % U32 :: c.L.length % U32 :: c.R.length % U32 :: c.O.length % U32 ::
    (termsWords c.L ++ termsWords c.R ++ termsWords c.O)

/-- `BlueprintGenericR1C.DecompressR1C`: reads the three lengths at
`calldata[1..3]` and copies the three flattened term lists starting at
offset 4. -/
def decompressR1C (calldata : List ℕ) : R1C :=
  let lenL := (calldata.drop 1).headD 0
  let lenR := (calldata.drop 2).headD 0
  let lenO := (calldata.drop 3).headD 0
  let cd := calldata.drop 4
  let (l, cd1) := readTerms lenL cd
  let (r, cd2) := readTerms lenR cd1
  let (o, _) := readTerms lenO cd2
  ⟨l, r, o⟩

/-- Well-formedness of a linear expression as it exists in Go: term fields
are `uint32` values. -/
def LEwf (l : LinearExpression) : Prop :=
  ∀ t ∈ l, t.CID < U32 ∧ t.VID < U32

/-- Well-formedness of an R1C as it exists in Go: `uint32` term fields and
slice lengths below `2^32` (Go slice lengths of compressible constraints
always are). -/
def R1Cwf (c : R1C) : Prop :=
  LEwf c.L ∧ LEwf c.R ∧ LEwf c.O ∧
    c.L.length < U32 ∧ c.R.length < U32 ∧ c.O.length < U32

instance (l : LinearExpression) : Decidable (LEwf l) :=
  inferInstanceAs (Decidable (∀ t ∈ l, t.CID < U32 ∧ t.VID < U32))

instance (c : R1C) : Decidable (R1Cwf c) :=
  inferInstanceAs (Decidable (LEwf c.L ∧ LEwf c.R ∧ LEwf c.O ∧
    c.L.length < U32 ∧ c.R.length < U32 ∧ c.O.length < U32))

/-! ## The solver (`solver` in package `cs`)

The solver state holds `values` and `solved` indexed by wire id, the
`nbSolved` counter, and the per-constraint accumulation vectors `a`, `b`,
`c`.  Arrays are modelled as total functions on `ℕ` (Go indexing past an
allocated array panics; a well-formed system never does).  Methods that
mutate the solver and return an `error` become functions returning
`SolverState F × Option (SolveError F)`. -/

/-- State of the solver during a call to `System.Solve`. -/
structure SolverState (F : Type) where
  values : ℕ → F
  solved : ℕ → Bool
  nbSolved : ℕ
  a : ℕ → F
  b : ℕ → F
  c : ℕ → F

/-- The error values the solver can produce.  Go `panic`s abort the process
and are modelled as dedicated constructors (no state after a panic is
observable).  `unsatisfiedConstraintError` models the declared type
`UnsatisfiedConstraintError{Err, CID, DebugInfo}`; the source declares it
but the solver never constructs it. -/
inductive SolveError (F : Type) where
  /-- the plain error of a failed check: `fmt.Errorf("%s ⋅ %s != %s", a, b, c)`,
  which carries the string forms of the three accumulated values and nothing else. -/
  | abNotEqC (a b c : F)
  /-- `errors.New("missing hint function")` in `solveWithHint`. -/
  | missingHintFunction
  /-- an error returned by a hint function, propagated by `solveWithHint`. -/
  | hintFailure (msg : String)
  /-- panic in `set`: solving the same wire twice. -/
  | setTwicePanic (id : ℕ)
  /-- panic in `solveR1C`: found more than one wire to instantiate. -/
  | twoUnsolvedPanic
  /-- panic in `divByCoeff`: division by the zero coefficient id. -/
  | divisionByZeroCoeffPanic
  /-- the declared `UnsatisfiedConstraintError` with constraint id and
  optional debug string; never produced by this solver. -/
  | unsatisfiedConstraintError (cid : ℕ) (debugInfo : Option String)
  /-- `newSolver`: invalid witness size (got, expected). -/
  | invalidWitnessSize (got expected : ℤ)
  /-- `newSolver`: `solver missing hint(s): [names]`. -/
  | missingHints (names : List String)
  /-- `run`: the solver did not assign a value to all wires. -/
  | notAllWiresAssigned
deriving DecidableEq

variable {F : Type} [Field F] [DecidableEq F]

/-- `set` assigns a wire value and marks it solved, panicking if the wire
was already solved (`"solving the same wire twice should never happen."`). -/
def SolverState.set (st : SolverState F) (id : ℕ) (value : F) :
    Except (SolveError F) (SolverState F) :=
  if st.solved id then .error (.setTwicePanic id)
  else .ok { st with
    values := Function.update st.values id value
    solved := Function.update st.solved id true
    nbSolved := st.nbSolved + 1 }

/-- `accumulateInto`: `r += t.coeff * t.value`, with fast paths for the
reserved coefficient ids (`Double` is `x + x`). -/
def accumulateInto (coeffs : ℕ → F) (values : ℕ → F) (t : Term) (r : F) : F :=
  if t.CID = CoeffIdZero then r
  else if t.CID = CoeffIdOne then r + values t.VID
  else if t.CID = CoeffIdTwo then r + (values t.VID + values t.VID)
  else if t.CID = CoeffIdMinusOne then r - values t.VID
  else r + coeffs t.CID * values t.VID

/-- `divByCoeff` sets `res = res / coeffs[cID]`, with fast paths for
`CoeffIdOne` (unchanged) and `CoeffIdMinusOne` (negation); `CoeffIdZero`
panics, any other id takes the full field division. -/
def divByCoeff (coeffs : ℕ → F) (res : F) (cID : ℕ) : Except (SolveError F) F :=
  if cID = CoeffIdOne then .ok res
  else if cID = CoeffIdMinusOne then .ok (-res)
  else if cID = CoeffIdZero then .error .divisionByZeroCoeffPanic
  else .ok (res / coeffs cID)

/-- The term sweep of `solveR1C` (`processLExp` closure): walk the linear
expression, accumulating `coeff * value` of already-solved wires into the
accumulator and recording the single unsolved term together with its side
(`locValue`); a second unsolved wire panics
(`"found more than one wire to instantiate"`). -/
def processLExp (coeffs : ℕ → F) (solved : ℕ → Bool) (values : ℕ → F) (locValue : ℕ) :
    List Term → F → Option (Term × ℕ) → Except (SolveError F) (F × Option (Term × ℕ))
  | [], val, loc => .ok (val, loc)
  | t :: ts, val, loc =>
    if solved t.VID then
      processLExp coeffs solved values locValue ts (accumulateInto coeffs values t val) loc
    else
      match loc with
      | some _ => .error .twoUnsolvedPanic
      | none => processLExp coeffs solved values locValue ts val (some (t, locValue))

/-- `solveR1C` computes the single unsolved wire of the constraint (if any),
accumulates `a[cID]`, `b[cID]`, `c[cID]` and checks satisfiability.  The
Go method mutates `solver.a[cID]` (etc.) through pointers while sweeping,
so the accumulated values are written back in every non-panicking branch,
including the failing-check ones. -/
def solveR1C (coeffs : ℕ → F) (st : SolverState F) (cID : ℕ) (r : R1C) :
    SolverState F × Option (SolveError F) :=
  match processLExp coeffs st.solved st.values 1 r.L (st.a cID) none with
  | .error e => (st, some e)
  | .ok (aV, loc1) =>
    match processLExp coeffs st.solved st.values 2 r.R (st.b cID) loc1 with
    | .error e => (st, some e)
    | .ok (bV, loc2) =>
      match processLExp coeffs st.solved st.values 3 r.O (st.c cID) loc2 with
      | .error e => (st, some e)
      | .ok (cV, loc3) =>
        let st1 : SolverState F := { st with
          a := Function.update st.a cID aV
          b := Function.update st.b cID bV
          c := Function.update st.c cID cV }
        match loc3 with
        | none =>
          if aV * bV = cV then (st1, none) else (st1, some (.abNotEqC aV bV cV))
        | some (t, loc) =>
          let compute : Except (SolveError F) (SolverState F × F) :=
            if loc = 1 then
              if bV ≠ 0 then
                let wire := cV / bV - aV
                .ok ({ st1 with a := Function.update st1.a cID (aV + wire) }, wire)
              else if aV * bV = cV then .ok (st1, 0)
              else .error (.abNotEqC aV bV cV)
            else if loc = 2 then
              if aV ≠ 0 then
                let wire := cV / aV - bV
                .ok ({ st1 with b := Function.update st1.b cID (bV + wire) }, wire)
              else if aV * bV = cV then .ok (st1, 0)
              else .error (.abNotEqC aV bV cV)
            else
              let wire := aV * bV - cV
              .ok ({ st1 with c := Function.update st1.c cID (cV + wire) }, wire)
          match compute with
          | .error e => (st1, some e)
          | .ok (st2, wire) =>
            match divByCoeff coeffs wire t.CID with
            | .error e => (st2, some e)
            | .ok w =>
              match st2.set t.VID w with
              | .error e => (st2, some e)
              | .ok st3 => (st3, none)

/-! ## Hints (`solveWithHint`) -/

/-- A hint function `func(q *big.Int, inputs []*big.Int, outputs []*big.Int) error`:
it receives the modulus, the evaluated inputs and the zero-initialized
output slots, and returns the final contents of the output slots together
with an optional error. -/
def HintFn : Type := ℤ → List ℤ → List ℤ → List ℤ × Option String

/-- Evaluation of one hint input: sum `coeff` for constant-tagged terms and
`coeff * value` for wire-backed terms (the inner loop of `solveWithHint`). -/
def evalHintInput (coeffs : ℕ → F) (values : ℕ → F) (l : LinearExpression) : F :=
  l.foldl
    (fun v t => if t.IsConstant then v + coeffs t.CID else accumulateInto coeffs values t v) 0

/-- The output-assignment loop of `solveWithHint`: convert each big-integer
output to a field element (`SetBigInt` reduces modulo the field) and `set`
it at consecutive wire ids from `start`. -/
def setHintOutputs (ofBig : ℤ → F) :
    SolverState F → ℕ → List ℤ → SolverState F × Option (SolveError F)
  | st, _, [] => (st, none)
  | st, start, o :: rest =>
    match st.set start (ofBig o) with
    | .error e => (st, some e)
    | .ok st1 => setHintOutputs ofBig st1 (start + 1) rest

/-- `solveWithHint` executes a hint and assigns the result to its output
wires.  `toBig` and `ofBig` model `fr.Element.BigInt` and
`fr.Element.SetBigInt`.  Note the source runs the output-assignment loop
before inspecting the hint's error, and only then returns it. -/
def solveWithHint (coeffs : ℕ → F) (toBig : F → ℤ) (ofBig : ℤ → F) (q : ℤ)
    (hints : ℕ → Option HintFn) (st : SolverState F) (h : HintMapping) :
    SolverState F × Option (SolveError F) :=
  match hints h.hintID with
  | none => (st, some .missingHintFunction)
  | some f =>
    let nbOutputs := h.outputRange.stop - h.outputRange.start
    let inputs := h.inputs.map (fun l => toBig (evalHintInput coeffs st.values l))
    let fres := f q inputs (List.replicate nbOutputs 0)
    match setHintOutputs ofBig st h.outputRange.start (List.takeD nbOutputs fres.1 0) with
    | (st1, some e) => (st1, some e)
    | (st1, none) => (st1, fres.2.map .hintFailure)

/-! ## The instruction loop (`processInstruction` / `run`) and `Solve`

An instruction's blueprint either encodes an R1C (decompressed and passed to
`solveR1C` with the instruction's `ConstraintOffset`) or a hint.  The level
partition guarantees instructions of one level are independent, so the
parallel dispatch of `run` computes the same map as processing the
instructions in order; the model runs them sequentially. -/

/-- A decoded instruction: the blueprint either yields an R1C (with the
instruction's constraint offset) or a hint mapping. -/
inductive Instr where
  | r1c (cID : ℕ) (c : R1C)
  | hint (h : HintMapping)
deriving DecidableEq

/-- `processInstruction`: dispatch on the blueprint kind. -/
def execInstr (coeffs : ℕ → F) (toBig : F → ℤ) (ofBig : ℤ → F) (q : ℤ)
    (hints : ℕ → Option HintFn) (st : SolverState F) : Instr → SolverState F × Option (SolveError F)
  | .r1c cID c => solveR1C coeffs st cID c
  | .hint h => solveWithHint coeffs toBig ofBig q hints st h

/-- The instruction loop of `run`, processing instructions in level order
and stopping at the first error. -/
def runSeq (coeffs : ℕ → F) (toBig : F → ℤ) (ofBig : ℤ → F) (q : ℤ)
    (hints : ℕ → Option HintFn) :
    SolverState F → List Instr → SolverState F × Option (SolveError F)
  | st, [] => (st, none)
  | st, i :: rest =>
    match execInstr coeffs toBig ofBig q hints st i with
    | (st1, none) => runSeq coeffs toBig ofBig q hints st1 rest
    | (st1, some e) => (st1, some e)

/-- The system data the solver reads: hint dependencies (id and name),
decoded instructions, the coefficient table and the wire counts.  Only the
R1CS system type exists here, so the witness offset is 1 (wire 0 is the
reserved ONE wire). -/
structure SystemModel (F : Type) where
  hintDependencies : List (ℕ × String)
  instructions : List Instr
  coeffs : ℕ → F
  nbPublic : ℕ
  nbSecret : ℕ
  nbInternal : ℕ

/-- Total number of wires `len(Public) + len(Secret) + NbInternalVariables`. -/
def SystemModel.nbWires (sys : SystemModel F) : ℕ :=
  sys.nbPublic + sys.nbSecret + sys.nbInternal

/-- The state `newSolver` builds: zeroed vectors, wire 0 set to one and the
witness copied in starting at wire 1, all marked solved. -/
def initialState (witness : List F) : SolverState F :=
  { values := fun i => if i = 0 then 1 else witness.getD (i - 1) 0
    solved := fun i => decide (i ≤ witness.length)
    nbSolved := witness.length + 1
    a := fun _ => 0
    b := fun _ => 0
    c := fun _ => 0 }

/-- The state returned together with an error raised before the solver
struct is built: nothing is allocated, no wire is assigned. -/
def emptySolverState : SolverState F :=
  { values := fun _ => 0, solved := fun _ => false, nbSolved := 0
    a := fun _ => 0, b := fun _ => 0, c := fun _ => 0 }

/-- Modelled from the spec: `hintsolver.NewConfig` (not under `src/`)
merges the process-wide hint registry with the caller-supplied hint
functions of the solver options, caller-supplied entries taking
precedence; the result is `opt.HintFunctions`. -/
def configHintFunctions (globalRegistry optionHints : ℕ → Option HintFn) :
    ℕ → Option HintFn :=
  fun id => (optionHints id).orElse (fun _ => globalRegistry id)

/-- `newSolver`: checks the witness size
(`len(Public) - 1 + len(Secret)` for R1CS), then that every hint of
`MHintsDependencies` has a function in `opt.HintFunctions`, failing with
`solver missing hint(s)` listing the missing names; only then builds the
solver state. -/
def newSolver (sys : SystemModel F) (witness : List F)
    (hintFunctions : ℕ → Option HintFn) : Except (SolveError F) (SolverState F) :=
  let expected : ℤ := (sys.nbPublic : ℤ) - 1 + sys.nbSecret
  if (witness.length : ℤ) ≠ expected then
    .error (.invalidWitnessSize witness.length expected)
  else
    let missing := (sys.hintDependencies.filter
      (fun e => (hintFunctions e.1).isNone)).map Prod.snd
    if missing.isEmpty then .ok (initialState witness)
    else .error (.missingHints missing)

/-- `System.Solve`: build the solver (witness-size and hint checks), run
the instruction loop, then check that every wire was assigned.  Go returns
`(nil, err)` on failure; the model pairs the error with the state at the
failure point (`emptySolverState` when `newSolver` failed, i.e. before any
wire was assigned). -/
def Solve (sys : SystemModel F) (toBig : F → ℤ) (ofBig : ℤ → F) (q : ℤ)
    (witness : List F) (hintFunctions : ℕ → Option HintFn) :
    SolverState F × Option (SolveError F) :=
  match newSolver sys witness hintFunctions with
  | .error e => (emptySolverState, some e)
  | .ok st0 =>
    match runSeq sys.coeffs toBig ofBig q hintFunctions st0 sys.instructions with
    | (st1, some e) => (st1, some e)
    | (st1, none) =>
      if st1.nbSolved ≠ sys.nbWires then (st1, some .notAllWiresAssigned)
      else (st1, none)

/-! ## Semantic lemmas about the solver -/

/-- The coefficient-table invariant established by `newCoeffTable` and
maintained by `AddCoeff`: the five reserved ids hold `0, 1, 2, -1, -2`,
and no id other than `CoeffIdZero` holds the zero element (`AddCoeff`
interns zero at id 0 and deduplicates). -/
def GoodCoeffs (coeffs : ℕ → F) : Prop :=
  coeffs 0 = 0 ∧ coeffs 1 = 1 ∧ coeffs 2 = 2 ∧ coeffs 3 = -1 ∧ coeffs 4 = -2 ∧
    ∀ i, i ≠ 0 → coeffs i ≠ 0

/-- The value of a linear expression under a wire assignment:
`Σ coeff * value` (spec §3: an R1C means `(Σ L) · (Σ R) = (Σ O)`). -/
def evalLE (coeffs : ℕ → F) (values : ℕ → F) (l : LinearExpression) : F :=
  (l.map (fun t => coeffs t.CID * values t.VID)).sum

@[simp] theorem evalLE_nil (coeffs values : ℕ → F) : evalLE coeffs values [] = 0 := rfl

@[simp] theorem evalLE_cons (coeffs values : ℕ → F) (t : Term) (l : LinearExpression) :
    evalLE coeffs values (t :: l) = coeffs t.CID * values t.VID + evalLE coeffs values l := by
  simp [evalLE]

@[simp] theorem evalLE_append (coeffs values : ℕ → F) (l1 l2 : LinearExpression) :
    evalLE coeffs values (l1 ++ l2) = evalLE coeffs values l1 + evalLE coeffs values l2 := by
  simp [evalLE]

/-- The constraint ids an instruction writes in the `a`, `b`, `c` vectors. -/
def r1cCids (instrs : List Instr) : List ℕ :=
  instrs.filterMap (fun i => match i with | .r1c cid _ => some cid | .hint _ => none)

/-- The constraint id whose `a`, `b`, `c` entries an instruction may write:
only an R1C instruction writes them, at its own constraint offset. -/
def Instr.touches : Instr → ℕ → Prop
  | .r1c cid _, j => cid = j
  | .hint _, _ => False

/-- The invariant carried across later instructions for an already解-solved
constraint: the `a·b = c` identity at its id, the semantic identity on the
current wire values, and solvedness of all its wires. -/
def ConstraintSat (coeffs : ℕ → F) (st : SolverState F) (cID : ℕ) (r : R1C) : Prop :=
  st.a cID * st.b cID = st.c cID ∧
  evalLE coeffs st.values r.L * evalLE coeffs st.values r.R =
    evalLE coeffs st.values r.O ∧
  ∀ t ∈ r.L ++ r.R ++ r.O, st.solved t.VID = true

/-! ## Concrete instantiation over `ZMod 13`

The Go solver is fixed to the BN254 scalar field; the concrete evaluations
below instantiate the generic development at the small prime field
`ZMod 13` (the claims under test do not depend on the modulus). -/

instance : Fact (Nat.Prime 13) := ⟨by norm_num⟩

/-- A small concrete coefficient table: the five reserved values, and `1`
at every further id (as any deduplicated table, it holds no zero outside
id 0). -/
def coeffs13 : ℕ → ZMod 13 := fun i =>
  if i = 0 then 0 else if i = 1 then 1 else if i = 2 then 2
  else if i = 3 then -1 else if i = 4 then -2 else 1

/-- `fr.Element.BigInt` at the concrete field: the canonical value. -/
def toBig13 : ZMod 13 → ℤ := fun x => (x.val : ℤ)

/-- `fr.Element.SetBigInt` at the concrete field: reduction mod 13. -/
def ofBig13 : ℤ → ZMod 13 := fun z => ((z.emod 13).toNat : ZMod 13)

/-- A one-constraint system `X · Y = Z` with wires
`[ONE, Z(public), X(secret), Y(secret)]` (spec §8 scenario 2). -/
def sys13 : SystemModel (ZMod 13) :=
  { hintDependencies := []
    instructions := [Instr.r1c 0 ⟨[⟨1, 2⟩], [⟨1, 3⟩], [⟨1, 1⟩]⟩]
    coeffs := coeffs13
    nbPublic := 2
    nbSecret := 2
    nbInternal := 0 }

/-- A system declaring the `inv_zero` hint dependency (spec §8 scenario 6). -/
def sysH : SystemModel (ZMod 13) :=
  { hintDependencies := [(7, "inv_zero")]
    instructions := []
    coeffs := coeffs13
    nbPublic := 1
    nbSecret := 0
    nbInternal := 0 }

/-- A hint function that writes nothing and returns an error. -/
def failFn : HintFn := fun _ _ outs => (outs, some "boom")

/-- A hint-function map holding only `failFn` at id 5. -/
def hintsEx : ℕ → Option HintFn := fun id => if id = 5 then some failFn else none

theorem termsWords_cons (t : Term) (ts : LinearExpression) :
    termsWords (t :: ts) = t.CID % U32 :: t.VID % U32 :: termsWords ts := rfl

theorem readTerms_termsWords (l : LinearExpression) (hl : LEwf l) (rest : List ℕ) :
    readTerms l.length (termsWords l ++ rest) = (l, rest) := by
  induction l with
  | nil => simp [termsWords, readTerms]
  | cons t ts ih =>
    obtain ⟨hc, hv⟩ := hl t (List.mem_cons_self t ts)
    have hts : LEwf ts := fun u hu => hl u (List.mem_cons_of_mem t hu)
    simp only [termsWords_cons, List.cons_append, List.length_cons, readTerms, readWord,
      List.headD_cons, List.tail_cons, Nat.mod_eq_of_lt hc, Nat.mod_eq_of_lt hv, ih hts]

theorem readInputs_inputWords (ls : List LinearExpression)
    (h : ∀ l ∈ ls, LEwf l ∧ l.length < U32) (rest : List ℕ) :
    readInputs ls.length ((ls.flatMap (fun l => l.length % U32 :: termsWords l)) ++ rest) =
      (ls, rest) := by
  induction ls with
  | nil => simp [readInputs]
  | cons l ls ih =>
    obtain ⟨hwf, hlen⟩ := h l (List.mem_cons_self l ls)
    have hls : ∀ u ∈ ls, LEwf u ∧ u.length < U32 := fun u hu => h u (List.mem_cons_of_mem l hu)
    simp only [List.flatMap_cons, List.length_cons, List.cons_append, List.append_assoc,
      readInputs, readWord, List.headD_cons, List.tail_cons, Nat.mod_eq_of_lt hlen]
    rw [readTerms_termsWords l hwf, ih hls]

/-- C5 (counterexample): the claim fails for 64-bit hint ids of `2 ^ 32` or
more, because `CompressHint` stores `uint32(h.HintID)`: the hint mapping
with hint id `2 ^ 32`, no inputs and empty output range decompresses to
hint id `0`. -/
theorem compress_hint_roundtrip_fails_on_large_hint_id :
    decompressHint (compressHint ⟨2 ^ 32, [], ⟨0, 0⟩⟩) ≠ ⟨2 ^ 32, [], ⟨0, 0⟩⟩ := by decide

/-- C5 (amended): for every HintMapping whose hint id fits in 32 bits (and
whose inputs satisfy the `uint32` representation bounds of the Go types),
decompressing the compression yields the same mapping: same hint id, same
inputs term for term, same output range. -/
theorem decompress_compress_hint (h : HintMapping) (hid : h.hintID < U32)
    (hlen : h.inputs.length < U32)
    (hins : ∀ l ∈ h.inputs, LEwf l ∧ l.length < U32) :
    decompressHint (compressHint h) = h := by
  obtain ⟨id, inputs, ⟨s, e⟩⟩ := h
  have h1 := readInputs_inputWords inputs hins [s, e]
  simp [compressHint, decompressHint, readWord, Nat.mod_eq_of_lt hid,
    Nat.mod_eq_of_lt hlen, h1]

/-- C5 (witness): the amended round trip evaluated at a concrete mapping
with one two-term input and output range `[3, 5)`. -/
theorem decompress_compress_hint_witness :
    decompressHint (compressHint ⟨9, [[⟨1, 2⟩, ⟨3, 0⟩]], ⟨3, 5⟩⟩) =
      ⟨9, [[⟨1, 2⟩, ⟨3, 0⟩]], ⟨3, 5⟩⟩ :=
  decompress_compress_hint ⟨9, [[⟨1, 2⟩, ⟨3, 0⟩]], ⟨3, 5⟩⟩ (by decide) (by decide)
    (by decide)

/-- C6 (confirmed): for every R1C (with the `uint32` representation bounds
of the Go types), decompressing the compressed calldata reproduces `L`,
`R` and `O` term for term, in order. -/
theorem decompress_compress_r1c (c : R1C) (h : R1Cwf c) :
    decompressR1C (compressR1C c) = c := by
  obtain ⟨l, r, o⟩ := c
  obtain ⟨hL, hR, hO, hlL, hlR, hlO⟩ := h
  have h1 := readTerms_termsWords l hL (termsWords r ++ termsWords o)
  have h2 := readTerms_termsWords r hR (termsWords o)
  have h3 := readTerms_termsWords o hO []
  rw [List.append_nil] at h3
  simp [compressR1C, decompressR1C, Nat.mod_eq_of_lt hlL, Nat.mod_eq_of_lt hlR,
    Nat.mod_eq_of_lt hlO, List.append_assoc, h1, h2, h3]

/-- C6 (witness): the round trip evaluated at a concrete constraint with
two terms on `L` and one each on `R` and `O`. -/
theorem decompress_compress_r1c_witness :
    decompressR1C (compressR1C ⟨[⟨1, 2⟩, ⟨3, 4⟩], [⟨1, 0⟩], [⟨2, 7⟩]⟩) =
      ⟨[⟨1, 2⟩, ⟨3, 4⟩], [⟨1, 0⟩], [⟨2, 7⟩]⟩ :=
  decompress_compress_r1c ⟨[⟨1, 2⟩, ⟨3, 4⟩], [⟨1, 0⟩], [⟨2, 7⟩]⟩
    (by refine ⟨?_, ?_, ?_, ?_, ?_, ?_⟩ <;> decide)

theorem evalLE_congr (coeffs : ℕ → F) (v1 v2 : ℕ → F) (l : LinearExpression)
    (h : ∀ t ∈ l, v1 t.VID = v2 t.VID) :
    evalLE coeffs v1 l = evalLE coeffs v2 l := by
  induction l with
  | nil => rfl
  | cons t ts ih =>
    rw [evalLE_cons, evalLE_cons, h t (List.mem_cons_self t ts),
      ih (fun u hu => h u (List.mem_cons_of_mem t hu))]

theorem evalLE_update_of_ne (coeffs v : ℕ → F) (l : LinearExpression) (w : ℕ) (x : F)
    (h : ∀ t ∈ l, t.VID ≠ w) :
    evalLE coeffs (Function.update v w x) l = evalLE coeffs v l :=
  evalLE_congr coeffs _ v l (fun t ht => Function.update_noteq (h t ht) x v)

theorem accumulateInto_eq {coeffs : ℕ → F} (hg : GoodCoeffs coeffs)
    (values : ℕ → F) (t : Term) (r : F) :
    accumulateInto coeffs values t r = r + coeffs t.CID * values t.VID := by
  obtain ⟨h0, h1, h2, h3, _, _⟩ := hg
  unfold accumulateInto CoeffIdZero CoeffIdOne CoeffIdTwo CoeffIdMinusOne
  split_ifs with e0 e1 e2 e3
  · rw [e0, h0]; ring
  · rw [e1, h1]; ring
  · rw [e2, h2]; ring
  · rw [e3, h3]; ring
  · rfl

/-- `divByCoeff` success means the result times the coefficient recovers the
input: the claim that the returned value is the term-value divided by the
term's coefficient. -/
theorem divByCoeff_spec {coeffs : ℕ → F} (hg : GoodCoeffs coeffs) {res w : F} {cID : ℕ}
    (h : divByCoeff coeffs res cID = .ok w) : coeffs cID * w = res := by
  obtain ⟨h0, h1, _, h3, _, hnz⟩ := hg
  unfold divByCoeff CoeffIdZero CoeffIdOne CoeffIdMinusOne at h
  split_ifs at h with e1 e3 e0
  · cases h; rw [e1, h1, one_mul]
  · cases h; rw [e3, h3]; ring
  · cases h; rw [mul_comm]; exact div_mul_cancel₀ res (hnz cID e0)

/-- On success `divByCoeff` never sees the zero coefficient id. -/
theorem divByCoeff_cid_ne_zero {coeffs : ℕ → F} {res w : F} {cID : ℕ}
    (h : divByCoeff coeffs res cID = .ok w) : cID ≠ 0 := by
  unfold divByCoeff CoeffIdZero CoeffIdOne CoeffIdMinusOne at h
  split_ifs at h with e1 e3 e0
  · rw [e1]; decide
  · rw [e3]; decide
  · exact e0

/-- Successful `set`: the target wire was unsolved; it becomes solved with
the given value, every other wire keeps its flag and value, and the
accumulators are untouched. -/
theorem set_ok {st : SolverState F} {id : ℕ} {v : F} {st2 : SolverState F}
    (h : st.set id v = .ok st2) :
    st.solved id = false ∧
    st2.values = Function.update st.values id v ∧
    st2.solved = Function.update st.solved id true ∧
    st2.nbSolved = st.nbSolved + 1 ∧ st2.a = st.a ∧ st2.b = st.b ∧ st2.c = st.c := by
  unfold SolverState.set at h
  split_ifs at h with hs
  cases h
  simp only [Bool.not_eq_true] at hs
  exact ⟨hs, rfl, rfl, rfl, rfl, rfl, rfl⟩

theorem processLExp_all_solved {coeffs : ℕ → F} (hg : GoodCoeffs coeffs)
    (solved : ℕ → Bool) (values : ℕ → F) (lv : ℕ) (l : List Term) :
    ∀ (acc : F) (loc : Option (Term × ℕ)), (∀ t ∈ l, solved t.VID = true) →
      processLExp coeffs solved values lv l acc loc =
        .ok (acc + evalLE coeffs values l, loc) := by
  induction l with
  | nil => intro acc loc _; simp [processLExp]
  | cons t ts ih =>
    intro acc loc hs
    have hst := hs t (List.mem_cons_self t ts)
    simp only [processLExp, hst, eq_self_iff_true, if_true]
    rw [ih _ loc (fun u hu => hs u (List.mem_cons_of_mem t hu)),
      accumulateInto_eq hg, evalLE_cons, add_assoc]

theorem processLExp_some_ok {coeffs : ℕ → F} (hg : GoodCoeffs coeffs)
    (solved : ℕ → Bool) (values : ℕ → F) (lv : ℕ) (x : Term × ℕ) (l : List Term) :
    ∀ (acc acc2 : F) (loc2 : Option (Term × ℕ)),
      processLExp coeffs solved values lv l acc (some x) = .ok (acc2, loc2) →
      loc2 = some x ∧ (∀ t ∈ l, solved t.VID = true) ∧
        acc2 = acc + evalLE coeffs values l := by
  induction l with
  | nil =>
    intro acc acc2 loc2 h
    simp only [processLExp, Except.ok.injEq, Prod.mk.injEq] at h
    obtain ⟨h1, h2⟩ := h
    exact ⟨h2.symm, by simp, by rw [evalLE_nil, add_zero, h1]⟩
  | cons t ts ih =>
    intro acc acc2 loc2 h
    simp only [processLExp] at h
    by_cases hst : solved t.VID = true
    · rw [if_pos hst] at h
      obtain ⟨hloc, hall, hacc⟩ := ih _ _ _ h
      refine ⟨hloc, ?_, ?_⟩
      · intro u hu
        rcases List.mem_cons.mp hu with rfl | hu2
        · exact hst
        · exact hall u hu2
      · rw [hacc, accumulateInto_eq hg, evalLE_cons, add_assoc]
    · rw [if_neg hst] at h
      cases h

theorem processLExp_none_ok {coeffs : ℕ → F} (hg : GoodCoeffs coeffs)
    (solved : ℕ → Bool) (values : ℕ → F) (lv : ℕ) (l : List Term) :
    ∀ (acc acc2 : F) (loc2 : Option (Term × ℕ)),
      processLExp coeffs solved values lv l acc none = .ok (acc2, loc2) →
      (loc2 = none ∧ (∀ t ∈ l, solved t.VID = true) ∧
        acc2 = acc + evalLE coeffs values l) ∨
      (∃ t l1 l2, l = l1 ++ t :: l2 ∧ solved t.VID = false ∧ loc2 = some (t, lv) ∧
        (∀ u ∈ l1 ++ l2, solved u.VID = true) ∧
        acc2 = acc + evalLE coeffs values (l1 ++ l2)) := by
  induction l with
  | nil =>
    intro acc acc2 loc2 h
    simp only [processLExp, Except.ok.injEq, Prod.mk.injEq] at h
    obtain ⟨h1, h2⟩ := h
    exact Or.inl ⟨h2.symm, by simp, by rw [evalLE_nil, add_zero, h1]⟩
  | cons t ts ih =>
    intro acc acc2 loc2 h
    simp only [processLExp] at h
    by_cases hst : solved t.VID = true
    · rw [if_pos hst] at h
      rcases ih _ _ _ h with ⟨hloc, hall, hacc⟩ | ⟨t0, l1, l2, heq, hun, hloc, hall, hacc⟩
      · refine Or.inl ⟨hloc, ?_, ?_⟩
        · intro u hu
          rcases List.mem_cons.mp hu with rfl | hu2
          · exact hst
          · exact hall u hu2
        · rw [hacc, accumulateInto_eq hg, evalLE_cons, add_assoc]
      · refine Or.inr ⟨t0, t :: l1, l2, by rw [heq, List.cons_append], hun, hloc, ?_, ?_⟩
        · intro u hu
          rw [List.cons_append, List.mem_cons] at hu
          rcases hu with rfl | hu2
          · exact hst
          · exact hall u hu2
        · rw [hacc, accumulateInto_eq hg, List.cons_append, evalLE_cons, add_assoc]
    · rw [if_neg hst] at h
      obtain ⟨hloc, hall, hacc⟩ := processLExp_some_ok hg solved values lv _ ts _ _ _ h
      exact Or.inr ⟨t, [], ts, rfl, Bool.not_eq_true _ ▸ eq_false_of_ne_true hst, hloc,
        by simpa using hall, by simpa using hacc⟩

theorem processLExp_one_unsolved {coeffs : ℕ → F} (hg : GoodCoeffs coeffs)
    (solved : ℕ → Bool) (values : ℕ → F) (lv : ℕ) (t : Term) (l2 : List Term) :
    ∀ (l1 : List Term) (acc : F), (∀ u ∈ l1, solved u.VID = true) →
      solved t.VID = false → (∀ u ∈ l2, solved u.VID = true) →
      processLExp coeffs solved values lv (l1 ++ t :: l2) acc none =
        .ok (acc + evalLE coeffs values (l1 ++ l2), some (t, lv)) := by
  intro l1
  induction l1 with
  | nil =>
    intro acc _ ht hl2
    simp only [List.nil_append, processLExp, ht, Bool.false_eq_true, eq_self_iff_true,
      if_false]
    rw [processLExp_all_solved hg solved values lv l2 acc (some (t, lv)) hl2]
  | cons u l1 ih =>
    intro acc hl1 ht hl2
    have hu := hl1 u (List.mem_cons_self u l1)
    simp only [List.cons_append, processLExp, hu, eq_self_iff_true, if_true, List.append_eq]
    rw [ih _ (fun v hv => hl1 v (List.mem_cons_of_mem u hv)) ht hl2,
      accumulateInto_eq hg, evalLE_cons, add_assoc]

theorem divSet_success {coeffs : ℕ → F} {stA : SolverState F} {wire : F} {t : Term}
    {st2 : SolverState F}
    (h : (match divByCoeff coeffs wire t.CID with
          | .error e => (stA, some e)
          | .ok w =>
            match stA.set t.VID w with
            | .error e => (stA, some e)
            | .ok st3 => (st3, none)) = (st2, none))
    (hun : stA.solved t.VID = false) :
    ∃ w, divByCoeff coeffs wire t.CID = .ok w ∧
      st2 = { stA with values := Function.update stA.values t.VID w,
                       solved := Function.update stA.solved t.VID true,
                       nbSolved := stA.nbSolved + 1 } := by
  cases hd : divByCoeff coeffs wire t.CID with
  | error e => rw [hd] at h; simp at h
  | ok w =>
    rw [hd] at h
    simp only [SolverState.set, hun, Bool.false_eq_true, if_false, Prod.mk.injEq] at h
    exact ⟨w, rfl, h.1.symm⟩

theorem solved_ne_unsolved {st : SolverState F} {i : ℕ} (hun : st.solved i = false)
    {w0 : ℕ} (hw : st.solved w0 = true) : w0 ≠ i := by
  intro e
  rw [e, hun] at hw
  cases hw

theorem update_frame {st : SolverState F} {i : ℕ} (hun : st.solved i = false)
    (w : F) (w0 : ℕ) (hw : st.solved w0 = true) :
    Function.update st.solved i true w0 = true ∧
      Function.update st.values i w w0 = st.values w0 := by
  have hne : w0 ≠ i := solved_ne_unsolved hun hw
  rw [Function.update_noteq hne, Function.update_noteq hne]
  exact ⟨hw, rfl⟩

theorem evalLE_update_solved {coeffs : ℕ → F} {st : SolverState F} {i : ℕ}
    (hun : st.solved i = false) (w : F) {l : LinearExpression}
    (hall : ∀ u ∈ l, st.solved u.VID = true) :
    evalLE coeffs (Function.update st.values i w) l = evalLE coeffs st.values l :=
  evalLE_update_of_ne coeffs st.values l i w
    (fun u hu => solved_ne_unsolved hun (hall u hu))

theorem solveR1C_success_spec {coeffs : ℕ → F} (hg : GoodCoeffs coeffs)
    {st st2 : SolverState F} {cID : ℕ} {r : R1C}
    (h : solveR1C coeffs st cID r = (st2, none)) :
    (∀ w, st.solved w = true → st2.solved w = true ∧ st2.values w = st.values w) ∧
    (∀ j, j ≠ cID → st2.a j = st.a j ∧ st2.b j = st.b j ∧ st2.c j = st.c j) ∧
    (∀ t ∈ r.L ++ r.R ++ r.O, st2.solved t.VID = true) ∧
    (st.a cID = 0 → st.b cID = 0 → st.c cID = 0 →
      st2.a cID * st2.b cID = st2.c cID ∧
      evalLE coeffs st2.values r.L * evalLE coeffs st2.values r.R =
        evalLE coeffs st2.values r.O) := by
  unfold solveR1C at h
  cases hL : processLExp coeffs st.solved st.values 1 r.L (st.a cID) none with
  | error e => rw [hL] at h; simp at h
  | ok pL =>
  obtain ⟨aV, loc1⟩ := pL
  rw [hL] at h
  dsimp only [] at h
  cases hR : processLExp coeffs st.solved st.values 2 r.R (st.b cID) loc1 with
  | error e => rw [hR] at h; simp at h
  | ok pR =>
  obtain ⟨bV, loc2⟩ := pR
  rw [hR] at h
  dsimp only [] at h
  cases hO : processLExp coeffs st.solved st.values 3 r.O (st.c cID) loc2 with
  | error e => rw [hO] at h; simp at h
  | ok pO =>
  obtain ⟨cV, loc3⟩ := pO
  rw [hO] at h
  dsimp only [] at h
  rcases processLExp_none_ok hg st.solved st.values 1 r.L _ _ _ hL with
    ⟨hloc1, hallL, haV⟩ | ⟨t, l1, l2, hLdec, hunL, hloc1, hallL, haV⟩
  · -- no unknown in L
    subst hloc1
    rcases processLExp_none_ok hg st.solved st.values 2 r.R _ _ _ hR with
      ⟨hloc2, hallR, hbV⟩ | ⟨t, r1, r2, hRdec, hunR, hloc2, hallR, hbV⟩
    · -- no unknown in R
      subst hloc2
      rcases processLExp_none_ok hg st.solved st.values 3 r.O _ _ _ hO with
        ⟨hloc3, hallO, hcV⟩ | ⟨t, o1, o2, hOdec, hunO, hloc3, hallO, hcV⟩
      · -- no unknown anywhere: a pure check of a * b == c
        subst hloc3
        dsimp only [] at h
        split_ifs at h with hcheck
        · have hst2 := (Prod.ext_iff.mp h).1
          subst hst2
          refine ⟨fun w hw => ⟨hw, rfl⟩, ?_, ?_, ?_⟩
          · intro j hj
            refine ⟨?_, ?_, ?_⟩ <;> simp [Function.update_noteq hj]
          · intro u hu
            rcases List.mem_append.mp hu with hu1 | huO
            · rcases List.mem_append.mp hu1 with huL | huR
              · exact hallL u huL
              · exact hallR u huR
            · exact hallO u huO
          · intro ha0 hb0 hc0
            rw [ha0, zero_add] at haV
            rw [hb0, zero_add] at hbV
            rw [hc0, zero_add] at hcV
            refine ⟨?_, ?_⟩
            · dsimp only
              simp only [Function.update_same]
              exact hcheck
            · dsimp only
              rw [← haV, ← hbV, ← hcV]
              exact hcheck
        · simp at h
      · -- unknown on O (side 3)
        subst hloc3
        dsimp only [] at h
        obtain ⟨w, hd, hst2⟩ := divSet_success h hunO
        subst hst2
        have hsolved2 : ∀ u : Term, st.solved u.VID = true →
            Function.update st.solved t.VID true u.VID = true := fun u hu => by
          rw [Function.update_noteq (solved_ne_unsolved hunO hu)]; exact hu
        have hallO2 : ∀ u ∈ o1 ++ o2, st.solved u.VID = true := hallO
        refine ⟨?_, ?_, ?_, ?_⟩
        · intro w0 hw
          exact update_frame hunO w w0 hw
        · intro j hj
          refine ⟨?_, ?_, ?_⟩ <;> simp [Function.update_noteq hj]
        · intro u hu
          dsimp only
          rcases List.mem_append.mp hu with hu1 | huO
          · rcases List.mem_append.mp hu1 with huL | huR
            · exact hsolved2 u (hallL u huL)
            · exact hsolved2 u (hallR u huR)
          · rw [hOdec] at huO
            rcases List.mem_append.mp huO with h1 | h2
            · exact hsolved2 u (hallO2 u (List.mem_append_left o2 h1))
            · rcases List.mem_cons.mp h2 with rfl | h3
              · exact Function.update_same _ _ _
              · exact hsolved2 u (hallO2 u (List.mem_append_right o1 h3))
        · intro ha0 hb0 hc0
          rw [ha0, zero_add] at haV
          rw [hb0, zero_add] at hbV
          rw [hc0, zero_add] at hcV
          have hw : coeffs t.CID * w = aV * bV - cV := divByCoeff_spec hg hd
          have hLv : evalLE coeffs (Function.update st.values t.VID w) r.L =
              evalLE coeffs st.values r.L := evalLE_update_solved hunO w hallL
          have hRv : evalLE coeffs (Function.update st.values t.VID w) r.R =
              evalLE coeffs st.values r.R := evalLE_update_solved hunO w hallR
          have hOv : evalLE coeffs (Function.update st.values t.VID w) r.O =
              aV * bV := by
            rw [hOdec, evalLE_append, evalLE_cons, Function.update_same,
              evalLE_update_solved hunO w (fun u hu => hallO2 u (List.mem_append_left o2 hu)),
              evalLE_update_solved hunO w (fun u hu => hallO2 u (List.mem_append_right o1 hu)),
              hw]
            rw [evalLE_append] at hcV
            rw [hcV]
            ring
          refine ⟨?_, ?_⟩
          · dsimp only
            simp only [Function.update_idem, Function.update_same]
            ring
          · dsimp only
            rw [hLv, hRv, hOv, ← haV, ← hbV]
    · -- unknown on R (side 2)
      subst hloc2
      obtain ⟨hloc3, hallO, hcV⟩ :=
        processLExp_some_ok hg st.solved st.values 3 (t, 2) r.O _ _ _ hO
      subst hloc3
      dsimp only [] at h
      have h21 : ¬((2 : ℕ) = 1) := by decide
      rw [if_neg h21, if_pos rfl] at h
      have hsolved2 : ∀ u : Term, st.solved u.VID = true →
          Function.update st.solved t.VID true u.VID = true := fun u hu => by
        rw [Function.update_noteq (solved_ne_unsolved hunR hu)]; exact hu
      have hallR2 : ∀ u ∈ r1 ++ r2, st.solved u.VID = true := hallR
      by_cases hane : aV ≠ 0
      · rw [if_pos hane] at h
        dsimp only [] at h
        obtain ⟨w, hd, hst2⟩ := divSet_success h hunR
        subst hst2
        refine ⟨?_, ?_, ?_, ?_⟩
        · intro w0 hw
          exact update_frame hunR w w0 hw
        · intro j hj
          refine ⟨?_, ?_, ?_⟩ <;> simp [Function.update_noteq hj]
        · intro u hu
          dsimp only
          rcases List.mem_append.mp hu with hu1 | huO
          · rcases List.mem_append.mp hu1 with huL | huR
            · exact hsolved2 u (hallL u huL)
            · rw [hRdec] at huR
              rcases List.mem_append.mp huR with h1 | h2
              · exact hsolved2 u (hallR2 u (List.mem_append_left r2 h1))
              · rcases List.mem_cons.mp h2 with rfl | h3
                · exact Function.update_same _ _ _
                · exact hsolved2 u (hallR2 u (List.mem_append_right r1 h3))
          · exact hsolved2 u (hallO u huO)
        · intro ha0 hb0 hc0
          rw [ha0, zero_add] at haV
          rw [hb0, zero_add] at hbV
          rw [hc0, zero_add] at hcV
          have hw : coeffs t.CID * w = cV / aV - bV := divByCoeff_spec hg hd
          have hLv : evalLE coeffs (Function.update st.values t.VID w) r.L =
              evalLE coeffs st.values r.L := evalLE_update_solved hunR w hallL
          have hOv : evalLE coeffs (Function.update st.values t.VID w) r.O =
              evalLE coeffs st.values r.O := evalLE_update_solved hunR w hallO
          have hRv : evalLE coeffs (Function.update st.values t.VID w) r.R =
              bV + (cV / aV - bV) := by
            rw [hRdec, evalLE_append, evalLE_cons, Function.update_same,
              evalLE_update_solved hunR w (fun u hu => hallR2 u (List.mem_append_left r2 hu)),
              evalLE_update_solved hunR w (fun u hu => hallR2 u (List.mem_append_right r1 hu)),
              hw]
            rw [evalLE_append] at hbV
            rw [hbV]
            ring
          have key : aV * (bV + (cV / aV - bV)) = cV := by
            have e1 : bV + (cV / aV - bV) = cV / aV := by ring
            rw [e1, mul_comm]
            exact div_mul_cancel₀ cV hane
          refine ⟨?_, ?_⟩
          · dsimp only
            simp only [Function.update_idem, Function.update_same]
            exact key
          · dsimp only
            rw [hLv, hRv, hOv, ← haV, ← hcV]
            exact key
      · rw [if_neg hane] at h
        push_neg at hane
        split_ifs at h with hcheck
        · dsimp only [] at h
          obtain ⟨w, hd, hst2⟩ := divSet_success h hunR
          subst hst2
          have hw0 : w = 0 := by
            have hwspec := divByCoeff_spec hg hd
            have hnz := hg.2.2.2.2.2 t.CID (divByCoeff_cid_ne_zero hd)
            rcases mul_eq_zero.mp hwspec with hcc | hww
            · exact absurd hcc hnz
            · exact hww
          refine ⟨?_, ?_, ?_, ?_⟩
          · intro w0 hw
            exact update_frame hunR w w0 hw
          · intro j hj
            refine ⟨?_, ?_, ?_⟩ <;> simp [Function.update_noteq hj]
          · intro u hu
            dsimp only
            rcases List.mem_append.mp hu with hu1 | huO
            · rcases List.mem_append.mp hu1 with huL | huR
              · exact hsolved2 u (hallL u huL)
              · rw [hRdec] at huR
                rcases List.mem_append.mp huR with h1 | h2
                · exact hsolved2 u (hallR2 u (List.mem_append_left r2 h1))
                · rcases List.mem_cons.mp h2 with rfl | h3
                  · exact Function.update_same _ _ _
                  · exact hsolved2 u (hallR2 u (List.mem_append_right r1 h3))
            · exact hsolved2 u (hallO u huO)
          · intro ha0 hb0 hc0
            rw [ha0, zero_add] at haV
            rw [hb0, zero_add] at hbV
            rw [hc0, zero_add] at hcV
            have hLv : evalLE coeffs (Function.update st.values t.VID w) r.L =
                evalLE coeffs st.values r.L := evalLE_update_solved hunR w hallL
            have hOv : evalLE coeffs (Function.update st.values t.VID w) r.O =
                evalLE coeffs st.values r.O := evalLE_update_solved hunR w hallO
            have hRv : evalLE coeffs (Function.update st.values t.VID w) r.R = bV := by
              rw [hRdec, evalLE_append, evalLE_cons, Function.update_same, hw0,
                evalLE_update_solved hunR 0 (fun u hu => hallR2 u (List.mem_append_left r2 hu)),
                evalLE_update_solved hunR 0 (fun u hu => hallR2 u (List.mem_append_right r1 hu))]
              rw [evalLE_append] at hbV
              rw [hbV]
              ring
            refine ⟨?_, ?_⟩
            · dsimp only
              simp only [Function.update_same]
              exact hcheck
            · dsimp only
              rw [hLv, hRv, hOv, ← haV, ← hcV]
              exact hcheck
        · simp at h
  · -- unknown on L (side 1)
    subst hloc1
    obtain ⟨hloc2, hallR, hbV⟩ :=
      processLExp_some_ok hg st.solved st.values 2 (t, 1) r.R _ _ _ hR
    subst hloc2
    obtain ⟨hloc3, hallO, hcV⟩ :=
      processLExp_some_ok hg st.solved st.values 3 (t, 1) r.O _ _ _ hO
    subst hloc3
    dsimp only [] at h
    rw [if_pos rfl] at h
    have hsolved2 : ∀ u : Term, st.solved u.VID = true →
        Function.update st.solved t.VID true u.VID = true := fun u hu => by
      rw [Function.update_noteq (solved_ne_unsolved hunL hu)]; exact hu
    have hallL2 : ∀ u ∈ l1 ++ l2, st.solved u.VID = true := hallL
    by_cases hbne : bV ≠ 0
    · rw [if_pos hbne] at h
      dsimp only [] at h
      obtain ⟨w, hd, hst2⟩ := divSet_success h hunL
      subst hst2
      refine ⟨?_, ?_, ?_, ?_⟩
      · intro w0 hw
        exact update_frame hunL w w0 hw
      · intro j hj
        refine ⟨?_, ?_, ?_⟩ <;> simp [Function.update_noteq hj]
      · intro u hu
        dsimp only
        rcases List.mem_append.mp hu with hu1 | huO
        · rcases List.mem_append.mp hu1 with huL | huR
          · rw [hLdec] at huL
            rcases List.mem_append.mp huL with h1 | h2
            · exact hsolved2 u (hallL2 u (List.mem_append_left l2 h1))
            · rcases List.mem_cons.mp h2 with rfl | h3
              · exact Function.update_same _ _ _
              · exact hsolved2 u (hallL2 u (List.mem_append_right l1 h3))
          · exact hsolved2 u (hallR u huR)
        · exact hsolved2 u (hallO u huO)
      · intro ha0 hb0 hc0
        rw [ha0, zero_add] at haV
        rw [hb0, zero_add] at hbV
        rw [hc0, zero_add] at hcV
        have hw : coeffs t.CID * w = cV / bV - aV := divByCoeff_spec hg hd
        have hRv : evalLE coeffs (Function.update st.values t.VID w) r.R =
            evalLE coeffs st.values r.R := evalLE_update_solved hunL w hallR
        have hOv : evalLE coeffs (Function.update st.values t.VID w) r.O =
            evalLE coeffs st.values r.O := evalLE_update_solved hunL w hallO
        have hLv : evalLE coeffs (Function.update st.values t.VID w) r.L =
            aV + (cV / bV - aV) := by
          rw [hLdec, evalLE_append, evalLE_cons, Function.update_same,
            evalLE_update_solved hunL w (fun u hu => hallL2 u (List.mem_append_left l2 hu)),
            evalLE_update_solved hunL w (fun u hu => hallL2 u (List.mem_append_right l1 hu)),
            hw]
          rw [evalLE_append] at haV
          rw [haV]
          ring
        have key : (aV + (cV / bV - aV)) * bV = cV := by
          have e1 : aV + (cV / bV - aV) = cV / bV := by ring
          rw [e1]
          exact div_mul_cancel₀ cV hbne
        refine ⟨?_, ?_⟩
        · dsimp only
          simp only [Function.update_idem, Function.update_same]
          exact key
        · dsimp only
          rw [hLv, hRv, hOv, ← hbV, ← hcV]
          exact key
    · rw [if_neg hbne] at h
      push_neg at hbne
      split_ifs at h with hcheck
      · dsimp only [] at h
        obtain ⟨w, hd, hst2⟩ := divSet_success h hunL
        subst hst2
        have hw0 : w = 0 := by
          have hwspec := divByCoeff_spec hg hd
          have hnz := hg.2.2.2.2.2 t.CID (divByCoeff_cid_ne_zero hd)
          rcases mul_eq_zero.mp hwspec with hcc | hww
          · exact absurd hcc hnz
          · exact hww
        refine ⟨?_, ?_, ?_, ?_⟩
        · intro w0 hw
          exact update_frame hunL w w0 hw
        · intro j hj
          refine ⟨?_, ?_, ?_⟩ <;> simp [Function.update_noteq hj]
        · intro u hu
          dsimp only
          rcases List.mem_append.mp hu with hu1 | huO
          · rcases List.mem_append.mp hu1 with huL | huR
            · rw [hLdec] at huL
              rcases List.mem_append.mp huL with h1 | h2
              · exact hsolved2 u (hallL2 u (List.mem_append_left l2 h1))
              · rcases List.mem_cons.mp h2 with rfl | h3
                · exact Function.update_same _ _ _
                · exact hsolved2 u (hallL2 u (List.mem_append_right l1 h3))
            · exact hsolved2 u (hallR u huR)
          · exact hsolved2 u (hallO u huO)
        · intro ha0 hb0 hc0
          rw [ha0, zero_add] at haV
          rw [hb0, zero_add] at hbV
          rw [hc0, zero_add] at hcV
          have hRv : evalLE coeffs (Function.update st.values t.VID w) r.R =
              evalLE coeffs st.values r.R := evalLE_update_solved hunL w hallR
          have hOv : evalLE coeffs (Function.update st.values t.VID w) r.O =
              evalLE coeffs st.values r.O := evalLE_update_solved hunL w hallO
          have hLv : evalLE coeffs (Function.update st.values t.VID w) r.L = aV := by
            rw [hLdec, evalLE_append, evalLE_cons, Function.update_same, hw0,
              evalLE_update_solved hunL 0 (fun u hu => hallL2 u (List.mem_append_left l2 hu)),
              evalLE_update_solved hunL 0 (fun u hu => hallL2 u (List.mem_append_right l1 hu))]
            rw [evalLE_append] at haV
            rw [haV]
            ring
          refine ⟨?_, ?_⟩
          · dsimp only
            simp only [Function.update_same]
            exact hcheck
          · dsimp only
            rw [hLv, hRv, hOv, ← hbV, ← hcV]
            exact hcheck
      · simp at h

theorem setHintOutputs_success {ofBig : ℤ → F} :
    ∀ (outs : List ℤ) (st : SolverState F) (start : ℕ) (st2 : SolverState F),
      setHintOutputs ofBig st start outs = (st2, none) →
      (∀ w, st.solved w = true → st2.solved w = true ∧ st2.values w = st.values w) ∧
      st2.a = st.a ∧ st2.b = st.b ∧ st2.c = st.c := by
  intro outs
  induction outs with
  | nil =>
    intro st start st2 h
    simp only [setHintOutputs, Prod.mk.injEq] at h
    rw [← h.1]
    exact ⟨fun w hw => ⟨hw, rfl⟩, rfl, rfl, rfl⟩
  | cons o rest ih =>
    intro st start st2 h
    simp only [setHintOutputs] at h
    split at h
    · simp at h
    · rename_i st1 heq
      obtain ⟨hun, hval, hsol, hnb, ha, hb, hc⟩ := set_ok heq
      obtain ⟨hframe, ha2, hb2, hc2⟩ := ih st1 (start + 1) st2 h
      refine ⟨?_, by rw [ha2, ha], by rw [hb2, hb], by rw [hc2, hc]⟩
      intro w hw
      have hne : w ≠ start := solved_ne_unsolved hun hw
      have hw1 : st1.solved w = true := by
        rw [hsol, Function.update_noteq hne]; exact hw
      obtain ⟨hs2, hv2⟩ := hframe w hw1
      refine ⟨hs2, ?_⟩
      rw [hv2, hval, Function.update_noteq hne]

theorem solveWithHint_success_frame {coeffs : ℕ → F} {toBig : F → ℤ} {ofBig : ℤ → F}
    {q : ℤ} {hints : ℕ → Option HintFn} {st st2 : SolverState F} {hm : HintMapping}
    (h : solveWithHint coeffs toBig ofBig q hints st hm = (st2, none)) :
    (∀ w, st.solved w = true → st2.solved w = true ∧ st2.values w = st.values w) ∧
    st2.a = st.a ∧ st2.b = st.b ∧ st2.c = st.c := by
  unfold solveWithHint at h
  split at h
  · simp at h
  · dsimp only [] at h
    split at h
    · simp at h
    · rename_i st1 heq
      rw [Prod.mk.injEq] at h
      rw [← h.1]
      exact setHintOutputs_success _ st _ st1 heq

theorem mem_r1cCids {cid : ℕ} {r : R1C} {instrs : List Instr}
    (h : Instr.r1c cid r ∈ instrs) : cid ∈ r1cCids instrs :=
  List.mem_filterMap.mpr ⟨_, h, rfl⟩

@[simp] theorem r1cCids_cons_r1c (cid : ℕ) (c : R1C) (rest : List Instr) :
    r1cCids (.r1c cid c :: rest) = cid :: r1cCids rest := rfl

@[simp] theorem r1cCids_cons_hint (hm : HintMapping) (rest : List Instr) :
    r1cCids (.hint hm :: rest) = r1cCids rest := rfl

theorem execInstr_success_frame {coeffs : ℕ → F} (hg : GoodCoeffs coeffs)
    {toBig : F → ℤ} {ofBig : ℤ → F} {q : ℤ} {hints : ℕ → Option HintFn}
    {st st2 : SolverState F} {i : Instr}
    (h : execInstr coeffs toBig ofBig q hints st i = (st2, none)) :
    (∀ w, st.solved w = true → st2.solved w = true ∧ st2.values w = st.values w) ∧
    (∀ j, ¬ i.touches j →
      st2.a j = st.a j ∧ st2.b j = st.b j ∧ st2.c j = st.c j) := by
  cases i with
  | r1c cid c =>
    obtain ⟨hf, habc, _, _⟩ := solveR1C_success_spec hg h
    exact ⟨hf, fun j hj => habc j (fun e => hj (e.symm : Instr.touches (.r1c cid c) j))⟩
  | hint hm =>
    obtain ⟨hf, ha, hb, hc⟩ := solveWithHint_success_frame h
    exact ⟨hf, fun j _ => ⟨by rw [ha], by rw [hb], by rw [hc]⟩⟩

theorem ConstraintSat_step {coeffs : ℕ → F} (hg : GoodCoeffs coeffs)
    {toBig : F → ℤ} {ofBig : ℤ → F} {q : ℤ} {hints : ℕ → Option HintFn}
    {st st2 : SolverState F} {i : Instr}
    (hex : execInstr coeffs toBig ofBig q hints st i = (st2, none))
    {cID : ℕ} {r : R1C} (hQ : ConstraintSat coeffs st cID r)
    (hnt : ¬ i.touches cID) :
    ConstraintSat coeffs st2 cID r := by
  obtain ⟨hf, habc⟩ := execInstr_success_frame hg hex
  obtain ⟨h1, h2, h3⟩ := hQ
  have hL : ∀ t ∈ r.L, st.solved t.VID = true :=
    fun t ht => h3 t (List.mem_append_left _ (List.mem_append_left _ ht))
  have hR : ∀ t ∈ r.R, st.solved t.VID = true :=
    fun t ht => h3 t (List.mem_append_left _ (List.mem_append_right _ ht))
  have hO : ∀ t ∈ r.O, st.solved t.VID = true :=
    fun t ht => h3 t (List.mem_append_right _ ht)
  obtain ⟨ha, hb, hc⟩ := habc cID hnt
  refine ⟨by rw [ha, hb, hc]; exact h1, ?_, fun t ht => (hf t.VID (h3 t ht)).1⟩
  rw [evalLE_congr coeffs st2.values st.values r.L (fun t ht => (hf t.VID (hL t ht)).2),
    evalLE_congr coeffs st2.values st.values r.R (fun t ht => (hf t.VID (hR t ht)).2),
    evalLE_congr coeffs st2.values st.values r.O (fun t ht => (hf t.VID (hO t ht)).2)]
  exact h2

theorem runSeq_preserves {coeffs : ℕ → F} (hg : GoodCoeffs coeffs)
    {toBig : F → ℤ} {ofBig : ℤ → F} {q : ℤ} {hints : ℕ → Option HintFn}
    {cID : ℕ} {r : R1C} :
    ∀ (instrs : List Instr) (st stF : SolverState F),
      runSeq coeffs toBig ofBig q hints st instrs = (stF, none) →
      cID ∉ r1cCids instrs →
      ConstraintSat coeffs st cID r → ConstraintSat coeffs stF cID r := by
  intro instrs
  induction instrs with
  | nil =>
    intro st stF h _ hQ
    simp only [runSeq, Prod.mk.injEq] at h
    rw [← h.1]
    exact hQ
  | cons i rest ih =>
    intro st stF h hnotin hQ
    simp only [runSeq] at h
    split at h
    · rename_i st1 heq
      have hnt : ¬ i.touches cID := by
        cases i with
        | r1c cid2 c =>
          intro e
          exact hnotin (by rw [r1cCids_cons_r1c, e]; exact List.mem_cons_self _ _)
        | hint hm => exact fun e => e
      exact ih st1 stF h (fun hm => hnotin (by
        cases i with
        | r1c cid2 c => exact List.mem_cons_of_mem _ hm
        | hint hm2 => exact hm)) (ConstraintSat_step hg heq hQ hnt)
    · simp at h

theorem runSeq_sat_aux {coeffs : ℕ → F} (hg : GoodCoeffs coeffs)
    {toBig : F → ℤ} {ofBig : ℤ → F} {q : ℤ} {hints : ℕ → Option HintFn}
    {cID : ℕ} {r : R1C} :
    ∀ (instrs : List Instr) (st stF : SolverState F),
      runSeq coeffs toBig ofBig q hints st instrs = (stF, none) →
      (r1cCids instrs).Nodup →
      Instr.r1c cID r ∈ instrs →
      st.a cID = 0 → st.b cID = 0 → st.c cID = 0 →
      ConstraintSat coeffs stF cID r := by
  intro instrs
  induction instrs with
  | nil => intro st stF _ _ hmem; cases hmem
  | cons i rest ih =>
    intro st stF h hnodup hmem ha hb hc
    simp only [runSeq] at h
    split at h
    · rename_i st1 heq
      rcases List.mem_cons.mp hmem with rfl | hmem2
      · -- this instruction is the target constraint
        obtain ⟨hf, habc, hallsolved, hprod⟩ := solveR1C_success_spec hg heq
        have hQ1 : ConstraintSat coeffs st1 cID r := by
          obtain ⟨hab, hev⟩ := hprod ha hb hc
          exact ⟨hab, hev, hallsolved⟩
        have hnotin : cID ∉ r1cCids rest := by
          rw [r1cCids_cons_r1c] at hnodup
          exact (List.nodup_cons.mp hnodup).1
        exact runSeq_preserves hg rest st1 stF h hnotin hQ1
      · -- the target constraint is later in the list
        have hzero : st1.a cID = 0 ∧ st1.b cID = 0 ∧ st1.c cID = 0 := by
          obtain ⟨_, habc⟩ := execInstr_success_frame hg heq
          have hcond : ¬ i.touches cID := by
            cases i with
            | r1c cid2 c =>
              intro e
              have h1 : cid2 ∈ r1cCids rest := by
                rw [(e : cid2 = cID)]
                exact mem_r1cCids hmem2
              rw [r1cCids_cons_r1c] at hnodup
              exact (List.nodup_cons.mp hnodup).1 h1
            | hint hm => exact fun e => e
          obtain ⟨ha2, hb2, hc2⟩ := habc cID hcond
          exact ⟨by rw [ha2]; exact ha, by rw [hb2]; exact hb, by rw [hc2]; exact hc⟩
        have hnodup2 : (r1cCids rest).Nodup := by
          cases i with
          | r1c cid2 c =>
            rw [r1cCids_cons_r1c] at hnodup
            exact (List.nodup_cons.mp hnodup).2
          | hint hm => exact hnodup
        exact ih st1 stF h hnodup2 hmem2 hzero.1 hzero.2.1 hzero.2.2
    · simp at h

theorem newSolver_ok {sys : SystemModel F} {witness : List F}
    {hintFns : ℕ → Option HintFn} {st0 : SolverState F}
    (h : newSolver sys witness hintFns = .ok st0) : st0 = initialState witness := by
  unfold newSolver at h
  dsimp only [] at h
  split_ifs at h with h1 h2
  cases h
  rfl

/-- C1: for every R1C constraint of a system on which `Solve` returned
success, the constraint is satisfied: `a[cid] * b[cid] = c[cid]` for the
accumulated vectors of the returned solution, and the sum of the left
linear expression times the sum of the right equals the sum of the output
expression under the solved wire values.  Hypotheses: the coefficient
table satisfies its construction invariant and the R1C instructions carry
pairwise-distinct constraint offsets (as laid out by `compressR1C`). -/
theorem solve_success_constraint_satisfied {F : Type} [Field F] [DecidableEq F]
    (sys : SystemModel F) (toBig : F → ℤ) (ofBig : ℤ → F) (q : ℤ)
    (witness : List F) (hintFns : ℕ → Option HintFn) (stF : SolverState F)
    (cID : ℕ) (r : R1C)
    (hg : GoodCoeffs sys.coeffs)
    (hnodup : (r1cCids sys.instructions).Nodup)
    (h : Solve sys toBig ofBig q witness hintFns = (stF, none))
    (hmem : Instr.r1c cID r ∈ sys.instructions) :
    stF.a cID * stF.b cID = stF.c cID ∧
    evalLE sys.coeffs stF.values r.L * evalLE sys.coeffs stF.values r.R =
      evalLE sys.coeffs stF.values r.O := by
  unfold Solve at h
  split at h
  · simp at h
  · rename_i st0 hns
    split at h
    · simp at h
    · rename_i st1 heq
      split_ifs at h with hnb
      · simp at h
      · rw [Prod.mk.injEq] at h
        rw [← h.1]
        rw [newSolver_ok hns] at heq
        obtain ⟨h1, h2, _⟩ :=
          runSeq_sat_aux hg sys.instructions (initialState witness) st1 heq hnodup hmem
            rfl rfl rfl
        exact ⟨h1, h2⟩

theorem coeffs13_good : GoodCoeffs coeffs13 := by
  refine ⟨by decide, by decide, by decide, by decide, by decide, ?_⟩
  intro i hi
  unfold coeffs13
  split_ifs with e0 e1 e2 e3 e4
  · exact absurd e0 hi
  · decide
  · decide
  · decide
  · decide
  · decide

/-- C1 (witness): the multiplication system solved at witness
`(Z, X, Y) = (2, 3, 5)` over `ZMod 13` succeeds and its single constraint
is satisfied in both forms. -/
theorem solve_success_constraint_satisfied_witness :
    (Solve sys13 toBig13 ofBig13 13 [2, 3, 5] (fun _ => none)).2 = none ∧
    ((Solve sys13 toBig13 ofBig13 13 [2, 3, 5] (fun _ => none)).1.a 0 *
        (Solve sys13 toBig13 ofBig13 13 [2, 3, 5] (fun _ => none)).1.b 0 =
      (Solve sys13 toBig13 ofBig13 13 [2, 3, 5] (fun _ => none)).1.c 0 ∧
    evalLE sys13.coeffs (Solve sys13 toBig13 ofBig13 13 [2, 3, 5] (fun _ => none)).1.values
        [⟨1, 2⟩] *
      evalLE sys13.coeffs (Solve sys13 toBig13 ofBig13 13 [2, 3, 5] (fun _ => none)).1.values
        [⟨1, 3⟩] =
      evalLE sys13.coeffs (Solve sys13 toBig13 ofBig13 13 [2, 3, 5] (fun _ => none)).1.values
        [⟨1, 1⟩]) := by
  have hsnd : (Solve sys13 toBig13 ofBig13 13 [2, 3, 5] (fun _ => none)).2 = none := by decide
  have hp : Solve sys13 toBig13 ofBig13 13 [2, 3, 5] (fun _ => none) =
      ((Solve sys13 toBig13 ofBig13 13 [2, 3, 5] (fun _ => none)).1, none) := by
    rw [← hsnd]
  exact ⟨hsnd,
    solve_success_constraint_satisfied sys13 toBig13 ofBig13 13 [2, 3, 5] (fun _ => none)
      (Solve sys13 toBig13 ofBig13 13 [2, 3, 5] (fun _ => none)).1 0
      ⟨[⟨1, 2⟩], [⟨1, 3⟩], [⟨1, 1⟩]⟩ coeffs13_good (by decide) hp (by decide)⟩

/-- C2: in `solveR1C`, when exactly one term of the constraint is unsolved
and it lies on L, and the accumulated `b` is nonzero, the solver computes
the unknown term-value as `(c / b) - a`, adds it into `a`, then divides
that term-value by the unknown term's coefficient — returning it unchanged
for coefficient id ONE, negating it for MINUS_ONE, and using the full field
division for any other nonzero id — and assigns the result as the unknown
wire's value, marking it solved. -/
theorem solveR1C_unknown_on_L {F : Type} [Field F] [DecidableEq F]
    (coeffs : ℕ → F) (st : SolverState F) (cID : ℕ) (r : R1C) (t : Term)
    (l1 l2 : List Term)
    (hg : GoodCoeffs coeffs)
    (hLdec : r.L = l1 ++ t :: l2)
    (hl : ∀ u ∈ l1 ++ l2, st.solved u.VID = true)
    (ht : st.solved t.VID = false)
    (hR : ∀ u ∈ r.R, st.solved u.VID = true)
    (hO : ∀ u ∈ r.O, st.solved u.VID = true)
    (hcid : t.CID ≠ 0)
    (hb : st.b cID + evalLE coeffs st.values r.R ≠ 0) :
    (solveR1C coeffs st cID r).2 = none ∧
    (solveR1C coeffs st cID r).1.a cID =
      (st.a cID + evalLE coeffs st.values (l1 ++ l2)) +
        ((st.c cID + evalLE coeffs st.values r.O) /
          (st.b cID + evalLE coeffs st.values r.R) -
          (st.a cID + evalLE coeffs st.values (l1 ++ l2))) ∧
    (solveR1C coeffs st cID r).1.solved t.VID = true ∧
    (solveR1C coeffs st cID r).1.values t.VID =
      (if t.CID = CoeffIdOne then
        ((st.c cID + evalLE coeffs st.values r.O) /
          (st.b cID + evalLE coeffs st.values r.R) -
          (st.a cID + evalLE coeffs st.values (l1 ++ l2)))
      else if t.CID = CoeffIdMinusOne then
        -((st.c cID + evalLE coeffs st.values r.O) /
          (st.b cID + evalLE coeffs st.values r.R) -
          (st.a cID + evalLE coeffs st.values (l1 ++ l2)))
      else
        ((st.c cID + evalLE coeffs st.values r.O) /
          (st.b cID + evalLE coeffs st.values r.R) -
          (st.a cID + evalLE coeffs st.values (l1 ++ l2))) / coeffs t.CID) := by
  have hl1 : ∀ u ∈ l1, st.solved u.VID = true :=
    fun u hu => hl u (List.mem_append_left l2 hu)
  have hl2 : ∀ u ∈ l2, st.solved u.VID = true :=
    fun u hu => hl u (List.mem_append_right l1 hu)
  have hplL := processLExp_one_unsolved hg st.solved st.values 1 t l2 l1 (st.a cID)
    hl1 ht hl2
  have hplR := processLExp_all_solved hg st.solved st.values 2 r.R (st.b cID)
    (some (t, 1)) hR
  have hplO := processLExp_all_solved hg st.solved st.values 3 r.O (st.c cID)
    (some (t, 1)) hO
  have hdiv : ∀ wire : F, divByCoeff coeffs wire t.CID =
      .ok (if t.CID = CoeffIdOne then wire
        else if t.CID = CoeffIdMinusOne then -wire
        else wire / coeffs t.CID) := by
    intro wire
    unfold divByCoeff
    split_ifs with e1 e3 e0
    · rfl
    · rfl
    · exact absurd e0 hcid
    · rfl
  unfold solveR1C
  rw [hLdec, hplL]
  dsimp only []
  rw [hplR]
  dsimp only []
  rw [hplO]
  dsimp only []
  rw [if_pos rfl, if_pos hb]
  dsimp only []
  rw [hdiv]
  dsimp only []
  simp only [SolverState.set, ht, Bool.false_eq_true, if_false]
  refine ⟨trivial, ?_, ?_, ?_⟩
  · dsimp only
    rw [Function.update_idem, Function.update_same]
  · dsimp only
    rw [Function.update_same]
  · dsimp only
    rw [Function.update_same]

/-- C2 (witness): state with wires `[ONE, 5]` solved and wire 2 unknown,
constraint `L = wire2`, `R = wire1`, `O = ONE`: the accumulated `b` is 5
(nonzero) and the unknown wire gets solved. -/
theorem solveR1C_unknown_on_L_witness :
    ((initialState (F := ZMod 13) [5]).b 0 +
      evalLE coeffs13 (initialState (F := ZMod 13) [5]).values [⟨1, 1⟩] ≠ 0) ∧
    (solveR1C coeffs13 (initialState (F := ZMod 13) [5]) 0
        ⟨[⟨1, 2⟩], [⟨1, 1⟩], [⟨1, 0⟩]⟩).2 = none ∧
    (solveR1C coeffs13 (initialState (F := ZMod 13) [5]) 0
        ⟨[⟨1, 2⟩], [⟨1, 1⟩], [⟨1, 0⟩]⟩).1.solved 2 = true := by
  have h := solveR1C_unknown_on_L coeffs13 (initialState (F := ZMod 13) [5]) 0
    ⟨[⟨1, 2⟩], [⟨1, 1⟩], [⟨1, 0⟩]⟩ ⟨1, 2⟩ [] []
    coeffs13_good rfl (by decide) (by decide) (by decide) (by decide) (by decide)
    (by decide)
  exact ⟨by decide, h.1, h.2.2.1⟩

/-- C3 (counterexample): an R1C with one unsolved term on L, accumulated
`b = 0` and `c = 0` (here `L = wire1`, `R = O = []` over a state where only
the ONE wire is solved): `solveR1C` verifies the constraint and returns
success, but — contrary to the claim — the unknown wire does not stay
unsolved: after the call it is marked solved. -/
theorem solveR1C_b_zero_counterexample :
    (solveR1C coeffs13 (initialState (F := ZMod 13) []) 0 ⟨[⟨1, 1⟩], [], []⟩).2 = none ∧
    (solveR1C coeffs13 (initialState (F := ZMod 13) []) 0
        ⟨[⟨1, 1⟩], [], []⟩).1.solved 1 = true := by
  decide

/-- C3 (amended): for every R1C with exactly one unsolved term, located on
L, whose accumulated `b` equals 0 and accumulated `c` equals 0, `solveR1C`
verifies the constraint (`a · 0 = 0`) and returns success, and then falls
through to the assignment step: the computed term-value is 0, `divByCoeff`
maps it to 0 (for any nonzero coefficient id), and the unknown wire is
assigned the value 0 and marked solved. -/
theorem solveR1C_unknown_on_L_b_zero {F : Type} [Field F] [DecidableEq F]
    (coeffs : ℕ → F) (st : SolverState F) (cID : ℕ) (r : R1C) (t : Term)
    (l1 l2 : List Term)
    (hg : GoodCoeffs coeffs)
    (hLdec : r.L = l1 ++ t :: l2)
    (hl : ∀ u ∈ l1 ++ l2, st.solved u.VID = true)
    (ht : st.solved t.VID = false)
    (hR : ∀ u ∈ r.R, st.solved u.VID = true)
    (hO : ∀ u ∈ r.O, st.solved u.VID = true)
    (hcid : t.CID ≠ 0)
    (hb : st.b cID + evalLE coeffs st.values r.R = 0)
    (hc : st.c cID + evalLE coeffs st.values r.O = 0) :
    (solveR1C coeffs st cID r).2 = none ∧
    (solveR1C coeffs st cID r).1.solved t.VID = true ∧
    (solveR1C coeffs st cID r).1.values t.VID = 0 := by
  have hl1 : ∀ u ∈ l1, st.solved u.VID = true :=
    fun u hu => hl u (List.mem_append_left l2 hu)
  have hl2 : ∀ u ∈ l2, st.solved u.VID = true :=
    fun u hu => hl u (List.mem_append_right l1 hu)
  have hplL := processLExp_one_unsolved hg st.solved st.values 1 t l2 l1 (st.a cID)
    hl1 ht hl2
  have hplR := processLExp_all_solved hg st.solved st.values 2 r.R (st.b cID)
    (some (t, 1)) hR
  have hplO := processLExp_all_solved hg st.solved st.values 3 r.O (st.c cID)
    (some (t, 1)) hO
  have hdiv : divByCoeff coeffs (0 : F) t.CID =
      .ok (if t.CID = CoeffIdOne then (0 : F)
        else if t.CID = CoeffIdMinusOne then -(0 : F)
        else (0 : F) / coeffs t.CID) := by
    unfold divByCoeff
    split_ifs with e1 e3 e0
    · rfl
    · rfl
    · exact absurd e0 hcid
    · rfl
  have hcheck : (st.a cID + evalLE coeffs st.values (l1 ++ l2)) *
      (st.b cID + evalLE coeffs st.values r.R) =
      st.c cID + evalLE coeffs st.values r.O := by
    rw [hb, hc, mul_zero]
  unfold solveR1C
  rw [hLdec, hplL]
  dsimp only []
  rw [hplR]
  dsimp only []
  rw [hplO]
  dsimp only []
  rw [if_pos rfl, if_neg (not_not_intro hb), if_pos hcheck]
  dsimp only []
  rw [hdiv]
  dsimp only []
  simp only [SolverState.set, ht, Bool.false_eq_true, if_false]
  refine ⟨trivial, ?_, ?_⟩
  · dsimp only
    rw [Function.update_same]
  · dsimp only
    rw [Function.update_same]
    split_ifs <;> simp

/-- C3 (witness): the amended statement applied to the concrete input of
the counterexample: the wire is assigned 0 and marked solved. -/
theorem solveR1C_unknown_on_L_b_zero_witness :
    ((initialState (F := ZMod 13) []).b 0 +
      evalLE coeffs13 (initialState (F := ZMod 13) []).values [] = 0) ∧
    (solveR1C coeffs13 (initialState (F := ZMod 13) []) 0
        ⟨[⟨1, 1⟩], [], []⟩).1.solved 1 = true ∧
    (solveR1C coeffs13 (initialState (F := ZMod 13) []) 0
        ⟨[⟨1, 1⟩], [], []⟩).1.values 1 = 0 := by
  have h := solveR1C_unknown_on_L_b_zero coeffs13 (initialState (F := ZMod 13) []) 0
    ⟨[⟨1, 1⟩], [], []⟩ ⟨1, 1⟩ [] []
    coeffs13_good rfl (by decide) (by decide) (by decide) (by decide) (by decide)
    (by decide) (by decide)
  exact ⟨by decide, h.2.1, h.2.2⟩

/-- C4 (amended): whenever an R1C verification `a·b ≠ c` fails during
solving, the error returned to the caller is the plain
`fmt.Errorf("a ⋅ b != c")` error that carries the string forms of the
three accumulated values and no constraint id; the declared
`UnsatisfiedConstraintError` type (with its constraint id and optional
debug string) is never constructed by the solver. -/
theorem solveR1C_check_failure_plain_error {F : Type} [Field F] [DecidableEq F]
    (coeffs : ℕ → F) (st : SolverState F) (cID : ℕ) (r : R1C)
    (hg : GoodCoeffs coeffs)
    (hallL : ∀ u ∈ r.L, st.solved u.VID = true)
    (hallR : ∀ u ∈ r.R, st.solved u.VID = true)
    (hallO : ∀ u ∈ r.O, st.solved u.VID = true)
    (hne : (st.a cID + evalLE coeffs st.values r.L) *
        (st.b cID + evalLE coeffs st.values r.R) ≠
      st.c cID + evalLE coeffs st.values r.O) :
    (solveR1C coeffs st cID r).2 =
      some (.abNotEqC (st.a cID + evalLE coeffs st.values r.L)
        (st.b cID + evalLE coeffs st.values r.R)
        (st.c cID + evalLE coeffs st.values r.O)) := by
  have hplL := processLExp_all_solved hg st.solved st.values 1 r.L (st.a cID)
    none hallL
  have hplR := processLExp_all_solved hg st.solved st.values 2 r.R (st.b cID)
    none hallR
  have hplO := processLExp_all_solved hg st.solved st.values 3 r.O (st.c cID)
    none hallO
  unfold solveR1C
  rw [hplL]
  dsimp only []
  rw [hplR]
  dsimp only []
  rw [hplO]
  dsimp only []
  rw [if_neg hne]

/-- C4 (counterexample): the one-constraint multiplication system solved
with the inconsistent witness `(Z, X, Y) = (3, 3, 5)` (spec §8 scenario 3,
where `UnsatisfiedConstraint{cid:0}` is expected): the error returned by
`Solve` is the plain `a ⋅ b != c` error carrying the accumulated values
`3, 5, 3`, not an `UnsatisfiedConstraintError` with constraint id 0. -/
theorem solve_unsatisfied_error_counterexample :
    (Solve sys13 toBig13 ofBig13 13 [3, 3, 5] (fun _ => none)).2 =
      some (.abNotEqC 3 5 3) ∧
    (Solve sys13 toBig13 ofBig13 13 [3, 3, 5] (fun _ => none)).2 ≠
      some (.unsatisfiedConstraintError 0 none) := by
  refine ⟨by decide, ?_⟩
  intro h
  rw [show (Solve sys13 toBig13 ofBig13 13 [3, 3, 5] (fun _ => none)).2 =
    some (.abNotEqC 3 5 3) from by decide] at h
  cases h

/-- C4 (witness): the amended statement applied to the state of scenario 3:
all wires solved, accumulated values `3, 5, 3`, and the returned error is
the plain value-carrying one. -/
theorem solveR1C_check_failure_plain_error_witness :
    (((initialState (F := ZMod 13) [3, 3, 5]).a 0 +
        evalLE coeffs13 (initialState (F := ZMod 13) [3, 3, 5]).values [⟨1, 2⟩]) *
      ((initialState (F := ZMod 13) [3, 3, 5]).b 0 +
        evalLE coeffs13 (initialState (F := ZMod 13) [3, 3, 5]).values [⟨1, 3⟩]) ≠
      (initialState (F := ZMod 13) [3, 3, 5]).c 0 +
        evalLE coeffs13 (initialState (F := ZMod 13) [3, 3, 5]).values [⟨1, 1⟩]) ∧
    (solveR1C coeffs13 (initialState (F := ZMod 13) [3, 3, 5]) 0
        ⟨[⟨1, 2⟩], [⟨1, 3⟩], [⟨1, 1⟩]⟩).2 =
      some (.abNotEqC
        ((initialState (F := ZMod 13) [3, 3, 5]).a 0 +
          evalLE coeffs13 (initialState (F := ZMod 13) [3, 3, 5]).values [⟨1, 2⟩])
        ((initialState (F := ZMod 13) [3, 3, 5]).b 0 +
          evalLE coeffs13 (initialState (F := ZMod 13) [3, 3, 5]).values [⟨1, 3⟩])
        ((initialState (F := ZMod 13) [3, 3, 5]).c 0 +
          evalLE coeffs13 (initialState (F := ZMod 13) [3, 3, 5]).values [⟨1, 1⟩])) := by
  refine ⟨by decide, ?_⟩
  exact solveR1C_check_failure_plain_error coeffs13 (initialState (F := ZMod 13) [3, 3, 5])
    0 ⟨[⟨1, 2⟩], [⟨1, 3⟩], [⟨1, 1⟩]⟩ coeffs13_good (by decide) (by decide) (by decide)
    (by decide)

/-- C7: if some hint id declared in the system's hint dependencies has no
registered function — neither in the global registry nor among the solver
options (the merged `opt.HintFunctions`) — then `Solve` fails with the
`solver missing hint(s)` error listing the missing names, and the failure
happens in `newSolver`, before any instruction is processed: the returned
state is the empty one with no wire assigned or marked solved. -/
theorem solve_missing_hint {F : Type} [Field F] [DecidableEq F]
    (sys : SystemModel F) (toBig : F → ℤ) (ofBig : ℤ → F) (q : ℤ)
    (witness : List F) (globalRegistry optionHints : ℕ → Option HintFn)
    (hw : (witness.length : ℤ) = (sys.nbPublic : ℤ) - 1 + sys.nbSecret)
    (hmiss : ∃ e ∈ sys.hintDependencies,
      configHintFunctions globalRegistry optionHints e.1 = none) :
    (Solve sys toBig ofBig q witness
        (configHintFunctions globalRegistry optionHints)).2 =
      some (.missingHints ((sys.hintDependencies.filter
        (fun e => (configHintFunctions globalRegistry optionHints e.1).isNone)).map
          Prod.snd)) ∧
    ((sys.hintDependencies.filter
      (fun e => (configHintFunctions globalRegistry optionHints e.1).isNone)).map
        Prod.snd) ≠ [] ∧
    ∀ w, (Solve sys toBig ofBig q witness
      (configHintFunctions globalRegistry optionHints)).1.solved w = false := by
  obtain ⟨e, he, hnone⟩ := hmiss
  have hmem : e ∈ sys.hintDependencies.filter
      (fun e => (configHintFunctions globalRegistry optionHints e.1).isNone) :=
    List.mem_filter.mpr ⟨he, by rw [hnone]; rfl⟩
  have hne : ((sys.hintDependencies.filter
      (fun e => (configHintFunctions globalRegistry optionHints e.1).isNone)).map
        Prod.snd) ≠ [] := by
    intro hnil
    rw [List.map_eq_nil_iff] at hnil
    rw [hnil] at hmem
    exact List.not_mem_nil e hmem
  have hns : newSolver sys witness (configHintFunctions globalRegistry optionHints) =
      .error (.missingHints ((sys.hintDependencies.filter
        (fun e => (configHintFunctions globalRegistry optionHints e.1).isNone)).map
          Prod.snd)) := by
    unfold newSolver
    dsimp only []
    rw [if_neg (not_not_intro hw), if_neg (fun hh => hne (List.isEmpty_iff.mp hh))]
  unfold Solve
  rw [hns]
  exact ⟨rfl, hne, fun w => rfl⟩

/-- C7 (witness): no hint function registered anywhere: `Solve` returns the
missing-hints error naming `inv_zero` and the returned state has no wire
solved. -/
theorem solve_missing_hint_witness :
    ((([] : List (ZMod 13)).length : ℤ) = (sysH.nbPublic : ℤ) - 1 + sysH.nbSecret) ∧
    (Solve sysH toBig13 ofBig13 13 []
        (configHintFunctions (fun _ => none) (fun _ => none))).2 =
      some (.missingHints ["inv_zero"]) ∧
    (Solve sysH toBig13 ofBig13 13 []
      (configHintFunctions (fun _ => none) (fun _ => none))).1.solved 0 = false := by
  have h := solve_missing_hint sysH toBig13 ofBig13 13 []
    (fun _ => none) (fun _ => none) (by decide) ⟨(7, "inv_zero"), by decide, rfl⟩
  exact ⟨by decide, h.1, h.2.2 0⟩

theorem setHintOutputs_all_unsolved {ofBig : ℤ → F} :
    ∀ (outs : List ℤ) (st : SolverState F) (start : ℕ),
      (∀ i, i < outs.length → st.solved (start + i) = false) →
      (setHintOutputs ofBig st start outs).2 = none ∧
      ∀ i, i < outs.length →
        (setHintOutputs ofBig st start outs).1.solved (start + i) = true := by
  intro outs
  induction outs with
  | nil =>
    intro st start _
    exact ⟨rfl, fun i hi => absurd hi (by simp)⟩
  | cons o rest ih =>
    intro st start hun
    have h0 : st.solved start = false := by
      have h1 := hun 0 (by simp)
      rw [Nat.add_zero] at h1
      exact h1
    have hstep : setHintOutputs ofBig st start (o :: rest) =
        setHintOutputs ofBig
          ({ st with values := Function.update st.values start (ofBig o)
                     solved := Function.update st.solved start true
                     nbSolved := st.nbSolved + 1 }) (start + 1) rest := by
      simp [setHintOutputs, SolverState.set, h0]
    have hrest : ∀ i, i < rest.length →
        (Function.update st.solved start true) (start + 1 + i) = false := by
      intro i hi
      rw [Function.update_noteq (by omega : start + 1 + i ≠ start)]
      have h1 := hun (i + 1) (by simpa using Nat.succ_lt_succ hi)
      rw [show start + (i + 1) = start + 1 + i from by omega] at h1
      exact h1
    obtain ⟨hsnd, hsolved⟩ := ih
      ({ st with values := Function.update st.values start (ofBig o)
                 solved := Function.update st.solved start true
                 nbSolved := st.nbSolved + 1 }) (start + 1) hrest
    have hpair : setHintOutputs ofBig
        ({ st with values := Function.update st.values start (ofBig o)
                   solved := Function.update st.solved start true
                   nbSolved := st.nbSolved + 1 }) (start + 1) rest =
        ((setHintOutputs ofBig
          ({ st with values := Function.update st.values start (ofBig o)
                     solved := Function.update st.solved start true
                     nbSolved := st.nbSolved + 1 }) (start + 1) rest).1, none) := by
      rw [← hsnd]
    obtain ⟨hframe, _, _, _⟩ := setHintOutputs_success rest _ (start + 1) _ hpair
    rw [hstep]
    refine ⟨hsnd, ?_⟩
    intro i hi
    cases i with
    | zero =>
      rw [Nat.add_zero]
      have hs1 : (Function.update st.solved start true) start = true :=
        Function.update_same _ _ _
      exact (hframe start hs1).1
    | succ i =>
      have h1 := hsolved i (by simpa using Nat.lt_of_succ_lt_succ hi)
      rw [show start + (i + 1) = start + 1 + i from by omega]
      exact h1

/-- C8 (amended): when `solveWithHint` invokes a registered hint function
and that function returns an error, the error is propagated to the caller
as the call's result — but only after the output-conversion loop has run:
every output wire in `[start, end)` is assigned (the converted content of
its zero-initialized output slot) and marked solved before the error is
returned. -/
theorem solveWithHint_error_still_assigns {F : Type} [Field F] [DecidableEq F]
    (coeffs : ℕ → F) (toBig : F → ℤ) (ofBig : ℤ → F) (q : ℤ)
    (hints : ℕ → Option HintFn) (st : SolverState F) (hm : HintMapping)
    (f : HintFn) (msg : String)
    (hf : hints hm.hintID = some f)
    (herr : (f q (hm.inputs.map (fun l => toBig (evalHintInput coeffs st.values l)))
        (List.replicate (hm.outputRange.stop - hm.outputRange.start) 0)).2 = some msg)
    (hun : ∀ i, i < hm.outputRange.stop - hm.outputRange.start →
      st.solved (hm.outputRange.start + i) = false) :
    (solveWithHint coeffs toBig ofBig q hints st hm).2 = some (.hintFailure msg) ∧
    ∀ i, i < hm.outputRange.stop - hm.outputRange.start →
      (solveWithHint coeffs toBig ofBig q hints st hm).1.solved
        (hm.outputRange.start + i) = true := by
  have hlen : (List.takeD (hm.outputRange.stop - hm.outputRange.start)
      (f q (hm.inputs.map (fun l => toBig (evalHintInput coeffs st.values l)))
        (List.replicate (hm.outputRange.stop - hm.outputRange.start) 0)).1 0).length =
      hm.outputRange.stop - hm.outputRange.start := List.takeD_length _ _ _
  obtain ⟨hsnd, hsolved⟩ := setHintOutputs_all_unsolved
    (List.takeD (hm.outputRange.stop - hm.outputRange.start)
      (f q (hm.inputs.map (fun l => toBig (evalHintInput coeffs st.values l)))
        (List.replicate (hm.outputRange.stop - hm.outputRange.start) 0)).1 0)
    st hm.outputRange.start (by rw [hlen]; exact hun)
  have hpair : setHintOutputs ofBig st hm.outputRange.start
      (List.takeD (hm.outputRange.stop - hm.outputRange.start)
        (f q (hm.inputs.map (fun l => toBig (evalHintInput coeffs st.values l)))
          (List.replicate (hm.outputRange.stop - hm.outputRange.start) 0)).1 0) =
      ((setHintOutputs ofBig st hm.outputRange.start
        (List.takeD (hm.outputRange.stop - hm.outputRange.start)
          (f q (hm.inputs.map (fun l => toBig (evalHintInput coeffs st.values l)))
            (List.replicate (hm.outputRange.stop - hm.outputRange.start) 0)).1 0)).1,
        none) := by
    rw [← hsnd]
  unfold solveWithHint
  rw [hf]
  dsimp only []
  rw [hpair]
  dsimp only []
  rw [herr]
  refine ⟨rfl, ?_⟩
  intro i hi
  have h1 := hsolved i (by rw [hlen]; exact hi)
  rw [hpair] at h1
  exact h1

/-- C8 (counterexample): a hint whose function errors, with output range
`[0, 1)` over a state with no solved wire: the error is returned, and —
contrary to the claim — output wire 0 has been assigned and marked
solved. -/
theorem solveWithHint_error_counterexample :
    (solveWithHint coeffs13 toBig13 ofBig13 13 hintsEx emptySolverState
        ⟨5, [], ⟨0, 1⟩⟩).2 = some (.hintFailure "boom") ∧
    (solveWithHint coeffs13 toBig13 ofBig13 13 hintsEx emptySolverState
      ⟨5, [], ⟨0, 1⟩⟩).1.solved 0 = true := by
  decide

/-- C8 (witness): the amended statement applied to the counterexample's
input: the hint error is propagated and output wire 0 is marked solved. -/
theorem solveWithHint_error_still_assigns_witness :
    hintsEx 5 = some failFn ∧
    (solveWithHint coeffs13 toBig13 ofBig13 13 hintsEx emptySolverState
        ⟨5, [], ⟨0, 1⟩⟩).2 = some (.hintFailure "boom") ∧
    (solveWithHint coeffs13 toBig13 ofBig13 13 hintsEx emptySolverState
      ⟨5, [], ⟨0, 1⟩⟩).1.solved (0 + 0) = true := by
  have h := solveWithHint_error_still_assigns coeffs13 toBig13 ofBig13 13 hintsEx
    emptySolverState ⟨5, [], ⟨0, 1⟩⟩ failFn "boom" rfl rfl
    (fun i _ => rfl)
  exact ⟨rfl, h.1, h.2 0 (by decide)⟩

/-- C9 (counterexample): a level of length 51 satisfies the claim's
condition — `51 < min_work_per_cpu * 2 = 100`, equivalently
`floor(51 / 50) = 1 ≤ 1` — yet `run` does not execute it sequentially:
`maxCPU = 51 / 50 > 1`, so the level is dispatched to the worker pool. -/
theorem runsSequentially_counterexample :
    runsSequentially 51 = false ∧ 51 < 50 * 2 ∧ 51 / 50 ≤ 1 := by
  refine ⟨?_, by decide, by decide⟩
  unfold runsSequentially maxCPUFor minWorkPerCPU
  rw [decide_eq_false_iff_not, not_le]
  norm_num

/-- C9 (amended): `run` executes a level sequentially on the caller thread
exactly when `level_len ≤ min_work_per_cpu = 50` — that is, when the
real-valued `max_cpu = level_len / min_work_per_cpu` is at most 1.  The
code compares the unfloored quotient against 1, so the claimed equivalent
thresholds `level_len < 100` and `floor(level_len / 50) ≤ 1` are wrong. -/
theorem runsSequentially_iff (n : ℕ) : runsSequentially n = true ↔ n ≤ 50 := by
  unfold runsSequentially maxCPUFor minWorkPerCPU
  rw [decide_eq_true_eq, div_le_one (by norm_num : (0 : ℚ) < 50)]
  exact_mod_cast Iff.rfl

theorem lookupHint_append {α : Type} (r1 r2 : List (ℕ × α)) (k : ℕ) :
    lookupHint (r1 ++ r2) k = (lookupHint r1 k).or (lookupHint r2 k) := by
  unfold lookupHint
  rw [List.find?_append]
  cases List.find? (fun e => e.1 = k) r1 <;> rfl

theorem registerHint_fresh_append {α : Type} :
    ∀ (pre : List (Hint α)) (reg : List (ℕ × α)) (rest : List (Hint α)),
      (pre.map Hint.ID).Nodup →
      (∀ h ∈ pre, lookupHint reg h.ID = none) →
      registerHint reg (pre ++ rest) =
        registerHint (reg ++ pre.map (fun h => (h.ID, h.Fn))) rest := by
  intro pre
  induction pre with
  | nil =>
    intro reg rest _ _
    rw [List.nil_append, List.map_nil, List.append_nil]
  | cons h pre ih =>
    intro reg rest hnodup hfresh
    have hh : lookupHint reg h.ID = none := hfresh h (List.mem_cons_self h pre)
    rw [List.cons_append]
    show (if (lookupHint reg h.ID).isSome then reg
      else registerHint (reg ++ [(h.ID, h.Fn)]) (pre ++ rest)) = _
    rw [hh]
    simp only [Option.isSome_none, Bool.false_eq_true, if_false]
    rw [List.map_cons] at hnodup
    obtain ⟨hnotin, hnd2⟩ := List.nodup_cons.mp hnodup
    have hfresh2 : ∀ h2 ∈ pre, lookupHint (reg ++ [(h.ID, h.Fn)]) h2.ID = none := by
      intro h2 hh2
      rw [lookupHint_append, hfresh h2 (List.mem_cons_of_mem h hh2)]
      have hne : ¬(h.ID = h2.ID) := fun e =>
        hnotin (e ▸ List.mem_map.mpr ⟨h2, hh2, rfl⟩)
      simp [lookupHint, hne]
    rw [ih (reg ++ [(h.ID, h.Fn)]) rest hnd2 hfresh2, List.append_assoc,
      List.singleton_append, List.map_cons]

theorem lookupHint_map_self {α : Type} :
    ∀ (pre : List (Hint α)) (h : Hint α), (pre.map Hint.ID).Nodup → h ∈ pre →
      lookupHint (pre.map (fun h2 => (h2.ID, h2.Fn))) h.ID = some h.Fn := by
  intro pre
  induction pre with
  | nil => intro h _ hh; cases hh
  | cons h0 rest ih =>
    intro h hnd hh
    rw [List.map_cons] at hnd ⊢
    obtain ⟨hnotin, hnd2⟩ := List.nodup_cons.mp hnd
    rcases List.mem_cons.mp hh with rfl | hmem
    · simp [lookupHint]
    · have hne : ¬(h0.ID = h.ID) := fun e =>
        hnotin (e ▸ List.mem_map.mpr ⟨h, hmem, rfl⟩)
      unfold lookupHint
      rw [List.find?_cons_of_neg _ (by simpa using hne)]
      exact ih h hnd2 hmem

/-- C10: when `RegisterHint` is called with a list of hints and one of them
has an id already present in the registry at that point, the existing entry
for that id is left unchanged and registration of the list stops there:
every hint before the first duplicate is registered, the duplicate and
every hint after it are silently not registered. -/
theorem registerHint_duplicate_stops {α : Type}
    (reg : List (ℕ × α)) (pre : List (Hint α)) (d : Hint α) (post : List (Hint α))
    (hnodup : (pre.map Hint.ID).Nodup)
    (hfresh : ∀ h ∈ pre, lookupHint reg h.ID = none)
    (hdup : (lookupHint (reg ++ pre.map (fun h => (h.ID, h.Fn))) d.ID).isSome = true) :
    registerHint reg (pre ++ d :: post) = reg ++ pre.map (fun h => (h.ID, h.Fn)) ∧
    (∀ k v, lookupHint reg k = some v →
      lookupHint (registerHint reg (pre ++ d :: post)) k = some v) ∧
    ∀ h ∈ pre, lookupHint (registerHint reg (pre ++ d :: post)) h.ID = some h.Fn := by
  have hmain : registerHint reg (pre ++ d :: post) =
      reg ++ pre.map (fun h => (h.ID, h.Fn)) := by
    rw [registerHint_fresh_append pre reg (d :: post) hnodup hfresh]
    show (if (lookupHint (reg ++ pre.map (fun h => (h.ID, h.Fn))) d.ID).isSome then _
      else _) = _
    rw [hdup]
    rfl
  refine ⟨hmain, ?_, ?_⟩
  · intro k v hk
    rw [hmain, lookupHint_append, hk]
    rfl
  · intro h hh
    rw [hmain, lookupHint_append, hfresh h hh, Option.none_or]
    exact lookupHint_map_self pre h hnodup hh

/-- C10 (witness): registry `[1 ↦ 10]`, call with hints
`[(2, 20), (1, 99), (3, 30)]`: the duplicate id 1 keeps its old entry 10,
hint 2 (before the duplicate) is registered, and hint 3 (after it) is
silently dropped. -/
theorem registerHint_duplicate_stops_witness :
    registerHint [(1, 10)] [⟨2, 20⟩, ⟨1, 99⟩, ⟨3, 30⟩] = [(1, 10), (2, 20)] ∧
    lookupHint (registerHint [(1, 10)] [⟨2, 20⟩, ⟨1, 99⟩, ⟨3, 30⟩]) 1 = some 10 ∧
    lookupHint (registerHint [(1, 10)] [⟨2, 20⟩, ⟨1, 99⟩, ⟨3, 30⟩]) 2 = some 20 := by
  have h := registerHint_duplicate_stops [(1, 10)] [⟨2, 20⟩] (⟨1, 99⟩ : Hint ℕ) [⟨3, 30⟩]
    (by decide) (by decide) (by decide)
  exact ⟨h.1, h.2.1 1 10 (by decide), h.2.2 ⟨2, 20⟩ (List.mem_cons_self _ _)⟩

end GnarkG16

